import Mathlib

/-!
# jx: git-service records and default workflows

A shallow embedding of `pkg/kube/git_services.go` and `pkg/workflow/workflows.go`.

* The Kubernetes record stores behind `jxClient` and `kubeClient` are explicit
  state: a list of records (in `List` order) together with fault switches that
  make an operation fail.
* Every entry point returns, next to its Go results, the store it leaves
  behind, the text written to `out`, and the sequence of store calls it made.
* Helpers the two files import but do not define (`ToValidNameWithDots`,
  `gits.SaasGitKind`, `url.Parse`, the string constants of the `kube` and `v1`
  packages) are fields of `Deps`; the theorems hold for every value of them.
-/

namespace Jx

/-! ## Data model -/

/-- Errors reported by a record store operation. -/
inductive StoreErr where
  | notFound (name : String)
  | alreadyExists (name : String)
  | unavailable
  deriving DecidableEq, Repr

/-- The `Spec` of a `v1.GitService`. -/
structure GitServiceSpec where
  Name : String
  URL : String
  GitKind : String
  deriving DecidableEq, Repr

/-- A `v1.GitService`: `Name` is `ObjectMeta.Name`, the key of the record. -/
structure GitService where
  Name : String
  Spec : GitServiceSpec
  deriving DecidableEq, Repr

/-- A `corev1.Secret` as far as `getServiceKindFromSecrets` reads it; the two
maps are association lists. -/
structure Secret where
  Name : String
  Annotations : List (String × String)
  Labels : List (String × String)
  deriving DecidableEq, Repr

/-- The `Promote` part of a `v1.WorkflowStep`. -/
structure PromoteWorkflowStep where
  Environment : String
  Parallel : Bool
  deriving DecidableEq, Repr

/-- A `v1.WorkflowStep`; `Promote` is a pointer in Go, hence an `Option`. The
fields the two source files never set stay at their zero value and are left out. -/
structure WorkflowStep where
  Kind : String
  Name : String
  Promote : Option PromoteWorkflowStep
  deriving DecidableEq, Repr

/-- A `v1.Workflow`: `ObjectMeta.Name`, `ObjectMeta.Namespace` and `Spec.Steps`. -/
structure Workflow where
  Name : String
  Namespace : String
  Steps : List WorkflowStep
  deriving DecidableEq, Repr

/-- The `Spec` of a `v1.Environment` as far as `GetWorkflow` reads it. -/
structure EnvironmentSpec where
  PromotionStrategy : String
  Kind : String
  deriving DecidableEq, Repr

/-- A `v1.Environment`. -/
structure Environment where
  Spec : EnvironmentSpec
  deriving DecidableEq, Repr

/-- What the two source files import without defining. -/
structure Deps where
  /-- The helper `kube.ToValidNameWithDots`. -/
  ToValidNameWithDots : String → String
  /-- The table lookup `gits.SaasGitKind`; the empty string means no entry. -/
  SaasGitKind : String → String
  /-- The Go call `url.Parse(gitUrl)` followed by `u.Host`; `none` is a parse error. -/
  urlHost : String → Option String
  /-- The constant `kube.SecretJenkinsPipelineGitCredentials`. -/
  SecretJenkinsPipelineGitCredentials : String
  /-- The constant `kube.AnnotationURL`. -/
  AnnotationURL : String
  /-- The constant `kube.LabelServiceKind`. -/
  LabelServiceKind : String
  /-- The constant `workflow.DefaultWorkflowName`. -/
  DefaultWorkflowName : String
  /-- The constant `v1.PromotionStrategyTypeAutomatic`. -/
  PromotionStrategyTypeAutomatic : String
  /-- The constant `v1.EnvironmentKindTypePermanent`. -/
  EnvironmentKindTypePermanent : String
  /-- The constant `v1.WorkflowStepKindTypePromote`. -/
  WorkflowStepKindTypePromote : String

/-- One call on a record store, as it appears in a trace. -/
inductive Call where
  | gitServicesList
  | gitServicesGet (name : String)
  | gitServicesCreate (g : GitService)
  | gitServicesUpdate (g : GitService)
  | secretsList
  | workflowsGet (name : String)
  | getOrderedEnvironments
  deriving DecidableEq, Repr

/-- Whether a call writes to a store. -/
def Call.isWrite : Call → Bool
  | .gitServicesCreate _ => true
  | .gitServicesUpdate _ => true
  | _ => false

/-- The errors the functions of the two files return. -/
inductive Err where
  /-- A store error handed on unchanged. -/
  | store (e : StoreErr)
  /-- Failed to update kind on GitService with name ... -/
  | updateKindFailed (name : String) (e : StoreErr)
  /-- No name supplied and could not parse URL ... -/
  | couldNotParseURL (gitUrl : String)
  /-- Failed to create GitService with name ... -/
  | createFailed (name : String) (e : StoreErr)
  /-- Failed to update GitService with name ... -/
  | updateFailed (name : String) (e : StoreErr)
  /-- The wrapped error: failed to list the secrets. -/
  | listSecretsFailed (e : StoreErr)
  /-- No service kind label found on secret ... for git service ... -/
  | noServiceKindLabel (secret : String) (gitServiceURL : String)
  /-- No secret found with configuration for ... git service. -/
  | noSecretFound (gitServiceURL : String)
  /-- No git service resource found with URL ... -/
  | noGitServiceResource (gitServiceURL : String)
  deriving DecidableEq, Repr

/-! ## The GitService record store -/

/-- Modelled from the spec: the generated clientset behind
`jxClient.JenkinsV1().GitServices(devNs)` is not among the sources. Section 6
of the specification describes it as a store of records keyed by name with
`List`, `Get`, `Create` and `Update`, whose failures are returned as errors,
where a `Get` of an absent name reports not-found and (section 5) a `Create` of
an existing name is rejected. `items` is the collection in `List` order; each
switch makes the operation fail whatever the records are. -/
structure GitServiceStore where
  items : List GitService
  listFails : Bool
  getFails : Bool
  createFails : Bool
  updateFails : Bool
  deriving DecidableEq, Repr

/-- The first record with the given record name. -/
def findByName : List GitService → String → Option GitService
  | [], _ => none
  | x :: xs, name => if x.Name = name then some x else findByName xs name

/-- Replace the first record that has the record name of `g` by `g`. -/
def replaceByName : List GitService → GitService → List GitService
  | [], _ => []
  | x :: xs, g => if x.Name = g.Name then g :: xs else x :: replaceByName xs g

/-- Store operation `List`. -/
def GitServiceStore.List (s : GitServiceStore) : Except StoreErr (List GitService) :=
  if s.listFails then .error .unavailable else .ok s.items

/-- Store operation `Get`. -/
def GitServiceStore.Get (s : GitServiceStore) (name : String) : Except StoreErr GitService :=
  if s.getFails then .error .unavailable
  else match findByName s.items name with
    | some g => .ok g
    | none => .error (.notFound name)

/-- Store operation `Create`: the new record goes to the end of the collection. -/
def GitServiceStore.Create (s : GitServiceStore) (g : GitService) :
    Except StoreErr GitServiceStore :=
  if s.createFails then .error .unavailable
  else match findByName s.items g.Name with
    | some _ => .error (.alreadyExists g.Name)
    | none => .ok { s with items := s.items ++ [g] }

/-- Store operation `Update`: the record stored under the name of `g` becomes `g`. -/
def GitServiceStore.Update (s : GitServiceStore) (g : GitService) :
    Except StoreErr GitServiceStore :=
  if s.updateFails then .error .unavailable
  else match findByName s.items g.Name with
    | some _ => .ok { s with items := replaceByName s.items g }
    | none => .error (.notFound g.Name)

/-- A store is keyed by record name: no two records share one. -/
def NamesUnique (s : GitServiceStore) : Prop :=
  (s.items.map (fun g => g.Name)).Nodup

/-- At most one record has each URL. -/
def URLsUnique (s : GitServiceStore) : Prop :=
  (s.items.map (fun g => g.Spec.URL)).Nodup

instance (s : GitServiceStore) : Decidable (NamesUnique s) :=
  inferInstanceAs (Decidable (List.Nodup (s.items.map (fun g : GitService => g.Name))))

instance (s : GitServiceStore) : Decidable (URLsUnique s) :=
  inferInstanceAs (Decidable (List.Nodup (s.items.map (fun g : GitService => g.Spec.URL))))

/-- The records of a collection whose `Spec.URL` is the given one. -/
def withURL (items : List GitService) (gitUrl : String) : List GitService :=
  items.filter (fun g => decide (g.Spec.URL = gitUrl))

/-! ## `EnsureGitServiceExistsForHost` -/

/-- What a call of `EnsureGitServiceExistsForHost` leaves behind: the returned
error (`none` for `nil`), the store, the lines written to `out`, and the store
calls in the order they were made. -/
structure EnsureResult where
  err : Option Err
  store : GitServiceStore
  out : List String
  calls : List Call
  deriving DecidableEq, Repr

/-- The loop of lines 30 to 45 returns at the first record whose `Spec.URL` is
`gitUrl`; this is that record. -/
def firstWithURL : List GitService → String → Option GitService
  | [], _ => none
  | gs :: rest, gitUrl => if gs.Spec.URL = gitUrl then some gs else firstWithURL rest gitUrl

/-- The notice of line 34. -/
def kindChangedNotice (gsName oldKind kind : String) : String :=
  "Updating GitService " ++ gsName ++ " as the kind has changed from " ++ oldKind ++
    " to " ++ kind ++ "\n"

/-- The record built at lines 55 to 64: its record name is the sanitized
`name`, its `Spec` holds `name`, `gitUrl` and `kind` as given. -/
def newGitService (d : Deps) (kind name gitUrl : String) : GitService :=
  { Name := d.ToValidNameWithDots name
    Spec := { Name := name, URL := gitUrl, GitKind := kind } }

/-- The assignment of line 35: `gs.Spec.GitKind = kind`. -/
def withKind (gs : GitService) (kind : String) : GitService :=
  { gs with Spec := { gs.Spec with GitKind := kind } }

/-- The assignments of lines 73 and 74 on `current`. -/
def withURLAndKind (current : GitService) (gitUrl kind : String) : GitService :=
  { current with Spec := { current.Spec with URL := gitUrl, GitKind := kind } }

/-- Lines 54 to 82: `name` is already defaulted, and the loop over the listed
records has found none with the URL. -/
def ensureByName (d : Deps) (gitServices : GitServiceStore) (kind name gitUrl : String) :
    EnsureResult :=
  let gitSvc := newGitService d kind name gitUrl
  match gitServices.Get name with
  | .error _ =>
    match gitServices.Create gitSvc with
    | .error e =>
      ⟨some (.createFailed gitSvc.Name e), gitServices, [],
        [.gitServicesList, .gitServicesGet name, .gitServicesCreate gitSvc]⟩
    | .ok s' =>
      ⟨none, s', [], [.gitServicesList, .gitServicesGet name, .gitServicesCreate gitSvc]⟩
  | .ok current =>
    if current.Spec.URL ≠ gitSvc.Spec.URL ∨ current.Spec.GitKind ≠ gitSvc.Spec.GitKind then
      match gitServices.Update (withURLAndKind current gitSvc.Spec.URL gitSvc.Spec.GitKind) with
      | .error e =>
        ⟨some (.updateFailed gitSvc.Name e), gitServices, [],
          [.gitServicesList, .gitServicesGet name,
            .gitServicesUpdate (withURLAndKind current gitSvc.Spec.URL gitSvc.Spec.GitKind)]⟩
      | .ok s' =>
        ⟨none, s', [],
          [.gitServicesList, .gitServicesGet name,
            .gitServicesUpdate (withURLAndKind current gitSvc.Spec.URL gitSvc.Spec.GitKind)]⟩
    else
      ⟨none, gitServices, [], [.gitServicesList, .gitServicesGet name]⟩

/-- The function `EnsureGitServiceExistsForHost` of `pkg/kube/git_services.go`;
`gitServices` is the state of `jxClient.JenkinsV1().GitServices(devNs)`. -/
def EnsureGitServiceExistsForHost (d : Deps) (gitServices : GitServiceStore)
    (kind name gitUrl : String) : EnsureResult :=
  if kind = "" ∨ kind = "github" ∨ gitUrl = "" then
    ⟨none, gitServices, [], []⟩
  else
    match gitServices.List with
    | .error e => ⟨some (.store e), gitServices, [], [.gitServicesList]⟩
    | .ok list =>
      match firstWithURL list gitUrl with
      | some gs =>
        let oldKind := gs.Spec.GitKind
        if oldKind ≠ kind then
          match gitServices.Update (withKind gs kind) with
          | .error e =>
            ⟨some (.updateKindFailed gs.Name e), gitServices,
              [kindChangedNotice gs.Name oldKind kind],
              [.gitServicesList, .gitServicesUpdate (withKind gs kind)]⟩
          | .ok s' =>
            ⟨none, s', [kindChangedNotice gs.Name oldKind kind],
              [.gitServicesList, .gitServicesUpdate (withKind gs kind)]⟩
        else
          ⟨none, gitServices, [], [.gitServicesList]⟩
      | none =>
        if name = "" then
          match d.urlHost gitUrl with
          | none => ⟨some (.couldNotParseURL gitUrl), gitServices, [], [.gitServicesList]⟩
          | some host => ensureByName d gitServices kind host gitUrl
        else
          ensureByName d gitServices kind name gitUrl

/-! ## `GetGitServiceKind` -/

/-- Modelled from the spec: the client behind `kubeClient.CoreV1().Secrets(ns)`
is not among the sources. Section 6 of the specification gives it one operation,
`List`, returning the secrets of the namespace, each with a name, an annotation
map and a label map. `listFails` makes the operation fail. -/
structure SecretStore where
  items : List Secret
  listFails : Bool
  deriving DecidableEq, Repr

/-- Store operation `List` on secrets. -/
def SecretStore.List (s : SecretStore) : Except StoreErr (List Secret) :=
  if s.listFails then .error .unavailable else .ok s.items

/-- The Go test `strings.HasPrefix(s, pre)`. -/
def hasPrefix (s pre : String) : Bool :=
  pre.toList.isPrefixOf s.toList

/-- The loop of lines 106 to 124 with the final return of `getServiceKindFromSecrets`. -/
def scanSecrets (d : Deps) : List Secret → String → String × Option Err
  | [], gitServiceURL => ("", some (.noSecretFound gitServiceURL))
  | secret :: rest, gitServiceURL =>
    if hasPrefix secret.Name d.SecretJenkinsPipelineGitCredentials then
      match secret.Annotations.lookup d.AnnotationURL with
      | none => scanSecrets d rest gitServiceURL
      | some url =>
        if url = gitServiceURL then
          match secret.Labels.lookup d.LabelServiceKind with
          | none => ("", some (.noServiceKindLabel secret.Name gitServiceURL))
          | some serviceKind => (serviceKind, none)
        else scanSecrets d rest gitServiceURL
    else scanSecrets d rest gitServiceURL

/-- The function `getServiceKindFromSecrets`: the returned string and error. -/
def getServiceKindFromSecrets (d : Deps) (secrets : SecretStore) (gitServiceURL : String) :
    String × Option Err :=
  match secrets.List with
  | .error e => ("", some (.listSecretsFailed e))
  | .ok secretList => scanSecrets d secretList gitServiceURL

/-- The function `getServiceKindFromGitServices`: the returned string and error. -/
def getServiceKindFromGitServices (gitServices : GitServiceStore) (gitServiceURL : String) :
    String × Option Err :=
  match gitServices.List with
  | .ok list =>
    match firstWithURL list gitServiceURL with
    | some gs => (gs.Spec.GitKind, none)
    | none => ("", some (.noGitServiceResource gitServiceURL))
  | .error _ => ("", some (.noGitServiceResource gitServiceURL))

/-- What a call of `GetGitServiceKind` returns, with the store calls it made. -/
structure KindResult where
  kind : String
  err : Option Err
  calls : List Call
  deriving DecidableEq, Repr

/-- The function `GetGitServiceKind` of `pkg/kube/git_services.go`. -/
def GetGitServiceKind (d : Deps) (gitServices : GitServiceStore) (secrets : SecretStore)
    (gitServiceURL : String) : KindResult :=
  let answer := d.SaasGitKind gitServiceURL
  if answer ≠ "" then
    ⟨answer, none, []⟩
  else
    let r := getServiceKindFromSecrets d secrets gitServiceURL
    if r.2 = none ∧ r.1 ≠ "" then
      ⟨r.1, none, [.secretsList]⟩
    else
      let r' := getServiceKindFromGitServices gitServices gitServiceURL
      ⟨r'.1, r'.2, [.secretsList, .gitServicesList]⟩

/-! ## `GetWorkflow` -/

/-- Modelled from the spec: neither the clientset behind
`jxClient.JenkinsV1().Workflows(ns)` nor `kube.GetOrderedEnvironments` is among
the sources. Section 6 of the specification gives the store a `Get` by name
that reports an absent record as an error, and describes
`GetOrderedEnvironments(namespace)` as returning a map from name to
environment, the ordered names, and an error. `workflows` are the stored
workflows of the namespace, `getFails` makes `Get` fail, and
`orderedEnvironments` is the answer of `GetOrderedEnvironments` for this
client and namespace (`Sum.inl` an error, `Sum.inr` the map and the names). -/
structure WorkflowClient where
  workflows : List Workflow
  getFails : Bool
  orderedEnvironments : StoreErr ⊕ (List (String × Environment) × List String)
  deriving DecidableEq, Repr

/-- The first stored workflow with the given name. -/
def findWorkflow : List Workflow → String → Option Workflow
  | [], _ => none
  | w :: ws, name => if w.Name = name then some w else findWorkflow ws name

/-- Store operation `Get` on workflows: the returned pointer and error. -/
def WorkflowClient.Get (c : WorkflowClient) (name : String) :
    Option Workflow × Option StoreErr :=
  if c.getFails then (none, some .unavailable)
  else match findWorkflow c.workflows name with
    | some w => (some w, none)
    | none => (none, some (.notFound name))

/-- The function `CreateWorkflowPromoteStep` of `pkg/workflow/workflows.go`. -/
def CreateWorkflowPromoteStep (d : Deps) (envName : String) (parallel : Bool) : WorkflowStep :=
  { Kind := d.WorkflowStepKindTypePromote
    Name := "step-promote-" ++ envName
    Promote := some { Environment := envName, Parallel := parallel } }

/-- The loop of lines 34 to 40 of `GetWorkflow`, started on the steps so far. -/
def appendPromoteSteps (d : Deps) (m : List (String × Environment)) :
    List String → List WorkflowStep → List WorkflowStep
  | [], steps => steps
  | name :: names, steps =>
    match m.lookup name with
    | some env =>
      if env.Spec.PromotionStrategy = d.PromotionStrategyTypeAutomatic ∧
          env.Spec.Kind = d.EnvironmentKindTypePermanent then
        appendPromoteSteps d m names (steps ++ [CreateWorkflowPromoteStep d name false])
      else appendPromoteSteps d m names steps
    | none => appendPromoteSteps d m names steps

/-- What a call of `GetWorkflow` returns, with the client state it leaves and
the calls it made. -/
structure WorkflowResult where
  workflow : Option Workflow
  err : Option StoreErr
  client : WorkflowClient
  calls : List Call
  deriving DecidableEq, Repr

/-- The function `GetWorkflow` of `pkg/workflow/workflows.go`; `c` is the state
of `jxClient` for namespace `ns`. -/
def GetWorkflow (d : Deps) (name : String) (c : WorkflowClient) (ns : String) :
    WorkflowResult :=
  let name := if name = "" then d.DefaultWorkflowName else name
  let r := c.Get name
  if r.2 = none ∨ name ≠ d.DefaultWorkflowName then
    ⟨r.1, r.2, c, [.workflowsGet name]⟩
  else
    match c.orderedEnvironments with
    | .inl e => ⟨none, some e, c, [.workflowsGet name, .getOrderedEnvironments]⟩
    | .inr (m, names) =>
      ⟨some { Name := d.DefaultWorkflowName, Namespace := ns,
              Steps := appendPromoteSteps d m names [] },
        none, c, [.workflowsGet name, .getOrderedEnvironments]⟩

/-- Whether the environment of a name contributes a step to the default workflow. -/
def qualifies (d : Deps) (m : List (String × Environment)) (name : String) : Bool :=
  match m.lookup name with
  | some env =>
    decide (env.Spec.PromotionStrategy = d.PromotionStrategyTypeAutomatic ∧
      env.Spec.Kind = d.EnvironmentKindTypePermanent)
  | none => false

/-! ## A concrete environment for worked examples

The theorems below hold for every `Deps`. The concrete examples need one value
of it; its parts are stated here. -/

/-- Characters a record name may contain after its first letter. -/
def isNameChar (c : Char) : Bool :=
  c.isLower || c.isDigit || c == '-' || c == '.'

/-- Every invalid character becomes a dash, and a run of dashes becomes one. -/
def sanitizeRest : List Char → Bool → List Char
  | [], _ => []
  | c :: cs, lastCharDash =>
    let ch := if isNameChar c then c else '-'
    if ch = '-' ∧ lastCharDash = true then sanitizeRest cs true
    else ch :: sanitizeRest cs (ch == '-')

/-- Modelled from the spec: `kube.ToValidNameWithDots` is not among the sources.
The specification calls it the sanitizer producing a valid record name, dots
preserved, other invalid characters normalized. Here: lower-case the input,
drop what precedes the first letter, turn each other invalid character into a
dash (runs of dashes into one), and drop trailing dashes. -/
def toValidNameWithDots (name : String) : String :=
  let lower := name.toList.map Char.toLower
  match lower.dropWhile (fun c => !c.isLower) with
  | [] => ""
  | c :: cs => String.mk ((c :: sanitizeRest cs false).reverse.dropWhile (· == '-')).reverse

/-- Modelled from the spec: `gits.SaasGitKind` is not among the sources. The
specification calls it the static table of well-known public hosts; here the
table has the canonical URLs of three providers, with or without a final slash. -/
def saasGitKind (gitServiceURL : String) : String :=
  let u := if gitServiceURL.toList.getLast? = some '/' then
    String.mk gitServiceURL.toList.dropLast else gitServiceURL
  if u = "https://github.com" ∨ u = "http://github.com" then "github"
  else if u = "https://gitlab.com" then "gitlab"
  else if u = "https://bitbucket.org" ∨ u = "http://bitbucket.org" then "bitbucketcloud"
  else ""

/-- The part of a character list before the first occurrence of `sep`. -/
def upTo (sep : Char) (l : List Char) : List Char :=
  l.takeWhile (· != sep)

/-- The part of a character list after the last occurrence of `sep`, the whole
list when `sep` does not occur. -/
def afterLast (sep : Char) (l : List Char) : List Char :=
  (l.reverse.takeWhile (· != sep)).reverse

/-- A reading of Go's `url.Parse(rawurl)` followed by `.Host` for URLs of the
shape `scheme://[userinfo@]host[/path][?query][#fragment]`: control characters,
a leading colon and a blank in the host are parse errors; without `//` after the
scheme the host is empty. Other inputs that Go rejects (a port that is not a
number, a malformed percent escape, an unclosed bracket, a colon in the first
path segment) are not recognised here; the worked examples use this reading
only at `https://github.example.com` and `://bad`, and every theorem takes the
parser as the parameter `Deps.urlHost`. -/
def urlHost (rawurl : String) : Option String :=
  let l := upTo '?' (upTo '#' rawurl.toList)
  if rawurl.toList.any (fun c => c.toNat < 32 || c.toNat == 127) then none
  else if l.head? = some ':' then none
  else
    let scheme := l.takeWhile (fun c => c.isAlphanum || c == '+' || c == '-' || c == '.')
    let rest :=
      if (l.drop scheme.length).head? = some ':' ∧ (scheme.head?.map Char.isAlpha) = some true
      then l.drop (scheme.length + 1) else l
    match rest with
    | '/' :: '/' :: authority =>
      let host := afterLast '@' (upTo '/' authority)
      if host.contains ' ' then none else some (String.mk host)
    | _ => some ""

/-- The environment of the worked examples. -/
def exampleDeps : Deps where
  ToValidNameWithDots := toValidNameWithDots
  SaasGitKind := saasGitKind
  urlHost := urlHost
  SecretJenkinsPipelineGitCredentials := "jx-pipeline-git-"
  AnnotationURL := "jenkins.io/url"
  LabelServiceKind := "jenkins.io/service-kind"
  DefaultWorkflowName := "default"
  PromotionStrategyTypeAutomatic := "Auto"
  EnvironmentKindTypePermanent := "Permanent"
  WorkflowStepKindTypePromote := "promote"

/-- A store without records in which no operation is made to fail. -/
def emptyStore : GitServiceStore :=
  { items := [], listFails := false, getFails := false, createFails := false,
    updateFails := false }

/-- A store with the given records in which no operation is made to fail. -/
def storeOf (items : List GitService) : GitServiceStore :=
  { emptyStore with items := items }

/-! ## Definitions used in the statements and the worked examples -/

/-- The first secret, in `List` order, whose name has the credential prefix and
whose URL annotation is present and equal to the host URL. -/
def firstMatchingSecret (d : Deps) : List Secret → String → Option Secret
  | [], _ => none
  | secret :: rest, gitServiceURL =>
    if hasPrefix secret.Name d.SecretJenkinsPipelineGitCredentials = true ∧
        secret.Annotations.lookup d.AnnotationURL = some gitServiceURL then some secret
    else firstMatchingSecret d rest gitServiceURL

/-- The name a lookup is made under: the empty name stands for the default one. -/
def normalizedName (d : Deps) (name : String) : String :=
  if name = "" then d.DefaultWorkflowName else name

/-- A credential secret for `https://github.example.com` that carries no
service-kind label. -/
def unlabelledSecret : Secret :=
  { Name := "jx-pipeline-git-github-ent"
    Annotations := [("jenkins.io/url", "https://github.example.com")]
    Labels := [] }

/-- The client of the worked example: no stored workflow, and three ordered
environments of which `qa` is not promoted automatically. -/
def exampleWorkflowClient : WorkflowClient :=
  { workflows := []
    getFails := false
    orderedEnvironments := .inr
      ([("staging", ⟨⟨"Auto", "Permanent"⟩⟩), ("production", ⟨⟨"Auto", "Permanent"⟩⟩),
        ("qa", ⟨⟨"Manual", "Permanent"⟩⟩)],
       ["staging", "production", "qa"]) }

/-- A store of three records: two share the URL `https://git.example.com`, the
third is stored under the name `git`. -/
def twoForOneURL : GitServiceStore :=
  storeOf
    [⟨"first", ⟨"first", "https://git.example.com", "gitlab"⟩⟩,
     ⟨"second", ⟨"second", "https://git.example.com", "gitlab"⟩⟩,
     ⟨"git", ⟨"git", "https://other.example.com", "bitbucketserver"⟩⟩]

/-- A store of two records with different names and URLs. -/
def exampleStore : GitServiceStore :=
  storeOf
    [⟨"git.example.com", ⟨"git.example.com", "https://git.example.com", "gitlab"⟩⟩,
     ⟨"git", ⟨"git", "https://other.example.com", "bitbucketserver"⟩⟩]

/-- A store whose one record was created for the name `my server`: it is
stored under the sanitized name. -/
def myServerStore : GitServiceStore :=
  storeOf [⟨toValidNameWithDots "my server", ⟨"my server", "http://old.example.com", "gitea"⟩⟩]

/-- A credential secret for `https://github.example.com` whose service-kind
label is present with the empty string as its value. -/
def emptyLabelSecret : Secret :=
  { Name := "jx-pipeline-git-github-ent"
    Annotations := [("jenkins.io/url", "https://github.example.com")]
    Labels := [("jenkins.io/service-kind", "")] }

/-- A secret collection: one secret without the credential prefix, one
credential secret without URL annotation, one for another host, then two for
`https://github.example.com` with different service-kind labels. -/
def exampleSecrets : SecretStore :=
  { items :=
      [⟨"tls-cert", [("jenkins.io/url", "https://github.example.com")],
          [("jenkins.io/service-kind", "gitlab")]⟩,
       ⟨"jx-pipeline-git-plain", [], [("jenkins.io/service-kind", "gitlab")]⟩,
       ⟨"jx-pipeline-git-other", [("jenkins.io/url", "https://other.example.com")],
          [("jenkins.io/service-kind", "bitbucketserver")]⟩,
       ⟨"jx-pipeline-git-one", [("jenkins.io/url", "https://github.example.com")],
          [("jenkins.io/service-kind", "github")]⟩,
       ⟨"jx-pipeline-git-two", [("jenkins.io/url", "https://github.example.com")],
          [("jenkins.io/service-kind", "gitea")]⟩]
    listFails := false }

/-- A store with the one record of `https://github.example.com`, of kind `gitea`. -/
def giteaStore : GitServiceStore :=
  storeOf [⟨"github.example.com",
    ⟨"github.example.com", "https://github.example.com", "gitea"⟩⟩]

/-- A store whose one record was created under an explicit name for a URL that
`url.Parse` rejects. -/
def unparseableStore : GitServiceStore :=
  storeOf [⟨"myhost", ⟨"myhost", "://bad", "gitea"⟩⟩]

/-- A store without records whose `Get` fails while every other operation works. -/
def getFailingStore : GitServiceStore :=
  { emptyStore with getFails := true }

/-- A store of three records: the first is stored under the name `git` with
another URL, the second and the third share the URL `https://git.example.com`. -/
def nameBeforeURL : GitServiceStore :=
  storeOf
    [⟨"git", ⟨"git", "https://other.example.com", "bitbucketserver"⟩⟩,
     ⟨"first", ⟨"first", "https://git.example.com", "gitlab"⟩⟩,
     ⟨"second", ⟨"second", "https://git.example.com", "gitlab"⟩⟩]

/-! ## Lemmas on the secret scan and the step loop -/

theorem scanSecrets_of_firstMatching_unlabelled (d : Deps) (gitServiceURL : String)
    (sec : Secret) (hlab : sec.Labels.lookup d.LabelServiceKind = none) :
    ∀ secrets : List Secret, firstMatchingSecret d secrets gitServiceURL = some sec →
      scanSecrets d secrets gitServiceURL =
        ("", some (.noServiceKindLabel sec.Name gitServiceURL)) := by
  intro secrets
  induction secrets with
  | nil => intro h; simp [firstMatchingSecret] at h
  | cons x rest ih =>
    intro h
    unfold firstMatchingSecret at h
    unfold scanSecrets
    by_cases hp : hasPrefix x.Name d.SecretJenkinsPipelineGitCredentials = true
    · cases ha : x.Annotations.lookup d.AnnotationURL with
      | none =>
        simp only [hp, ha, true_and, if_true] at h ⊢
        simp at h
        exact ih h
      | some url =>
        by_cases hu : url = gitServiceURL
        · subst hu
          simp only [hp, ha, true_and, if_true] at h ⊢
          simp at h
          subst h
          simp [hlab]
        · have hne : ¬ (some url = some gitServiceURL) := by
            intro hc; exact hu (Option.some.inj hc)
          simp only [hp, ha, true_and, if_true, hne, if_false, hu] at h ⊢
          exact ih h
    · simp only [hp, false_and, if_false] at h ⊢
      exact ih h

theorem appendPromoteSteps_eq (d : Deps) (m : List (String × Environment)) :
    ∀ (names : List String) (steps : List WorkflowStep),
      appendPromoteSteps d m names steps =
        steps ++ (names.filter (qualifies d m)).map
          (fun n => CreateWorkflowPromoteStep d n false) := by
  intro names
  induction names with
  | nil => intro steps; simp [appendPromoteSteps]
  | cons n rest ih =>
    intro steps
    unfold appendPromoteSteps
    cases hl : m.lookup n with
    | none =>
      have hq : qualifies d m n = false := by simp [qualifies, hl]
      simp [ih, List.filter_cons, hq]
    | some env =>
      by_cases hc : env.Spec.PromotionStrategy = d.PromotionStrategyTypeAutomatic ∧
          env.Spec.Kind = d.EnvironmentKindTypePermanent
      · have hq : qualifies d m n = true := by simp [qualifies, hl, hc]
        simp [ih, List.filter_cons, hq, hc]
      · have hq : qualifies d m n = false := by simp [qualifies, hl, hc]
        simp only [hc, if_false, ih, List.filter_cons, hq]
        simp

/-! ## Claims on the no-op guard, the resolver and the workflow defaulter -/

/-- C3: when `kind` is empty, or `kind` is the reserved marker `github`, or
`gitUrl` is empty, `EnsureGitServiceExistsForHost` returns no error, makes no
store call at all, writes nothing to `out`, and leaves the store as it was. -/
theorem ensure_noop_on_guard (d : Deps) (gitServices : GitServiceStore)
    (kind name gitUrl : String) (h : kind = "" ∨ kind = "github" ∨ gitUrl = "") :
    (EnsureGitServiceExistsForHost d gitServices kind name gitUrl).err = none ∧
    (EnsureGitServiceExistsForHost d gitServices kind name gitUrl).calls = [] ∧
    (EnsureGitServiceExistsForHost d gitServices kind name gitUrl).out = [] ∧
    (EnsureGitServiceExistsForHost d gitServices kind name gitUrl).store = gitServices := by
  unfold EnsureGitServiceExistsForHost
  rw [if_pos h]
  exact ⟨rfl, rfl, rfl, rfl⟩

/-- C4: for a host URL that the SaaS table knows, `GetGitServiceKind` returns
the table's kind and no error and calls neither store, whatever the two stores
hold and whether or not their `List` would fail. -/
theorem getGitServiceKind_saas (d : Deps) (gitServices : GitServiceStore)
    (secrets : SecretStore) (gitServiceURL : String)
    (h : d.SaasGitKind gitServiceURL ≠ "") :
    (GetGitServiceKind d gitServices secrets gitServiceURL).kind = d.SaasGitKind gitServiceURL ∧
    (GetGitServiceKind d gitServices secrets gitServiceURL).err = none ∧
    (GetGitServiceKind d gitServices secrets gitServiceURL).calls = [] := by
  unfold GetGitServiceKind
  simp [h]

/-- C3 at a concrete input: the reserved kind `github` on a store holding one record. -/
theorem ensure_noop_on_guard_witness :
    ("github" = "" ∨ "github" = "github" ∨ "https://github.com" = "") ∧
    ((EnsureGitServiceExistsForHost exampleDeps
        (storeOf [⟨"gitea", ⟨"gitea", "https://gitea.example.com", "gitea"⟩⟩])
        "github" "" "https://github.com").err = none ∧
     (EnsureGitServiceExistsForHost exampleDeps
        (storeOf [⟨"gitea", ⟨"gitea", "https://gitea.example.com", "gitea"⟩⟩])
        "github" "" "https://github.com").calls = [] ∧
     (EnsureGitServiceExistsForHost exampleDeps
        (storeOf [⟨"gitea", ⟨"gitea", "https://gitea.example.com", "gitea"⟩⟩])
        "github" "" "https://github.com").out = [] ∧
     (EnsureGitServiceExistsForHost exampleDeps
        (storeOf [⟨"gitea", ⟨"gitea", "https://gitea.example.com", "gitea"⟩⟩])
        "github" "" "https://github.com").store =
       storeOf [⟨"gitea", ⟨"gitea", "https://gitea.example.com", "gitea"⟩⟩]) :=
  ⟨by decide,
    ensure_noop_on_guard exampleDeps
      (storeOf [⟨"gitea", ⟨"gitea", "https://gitea.example.com", "gitea"⟩⟩])
      "github" "" "https://github.com" (by decide)⟩

/-- C4 at a concrete input: `https://gitlab.com` with both stores failing on `List`. -/
theorem getGitServiceKind_saas_witness :
    exampleDeps.SaasGitKind "https://gitlab.com" ≠ "" ∧
    ((GetGitServiceKind exampleDeps { emptyStore with listFails := true }
        { items := [], listFails := true } "https://gitlab.com").kind =
       exampleDeps.SaasGitKind "https://gitlab.com" ∧
     (GetGitServiceKind exampleDeps { emptyStore with listFails := true }
        { items := [], listFails := true } "https://gitlab.com").err = none ∧
     (GetGitServiceKind exampleDeps { emptyStore with listFails := true }
        { items := [], listFails := true } "https://gitlab.com").calls = []) :=
  ⟨by decide,
    getGitServiceKind_saas exampleDeps { emptyStore with listFails := true }
      { items := [], listFails := true } "https://gitlab.com" (by decide)⟩

/-- C5 as stated fails: the host is not in the SaaS table, the first matching
credential secret has no service-kind label, a stored record has the URL, and
`GetGitServiceKind` returns that record's kind with no error instead of the
label-missing error. -/
theorem getGitServiceKind_label_missing_counterexample :
    exampleDeps.SaasGitKind "https://github.example.com" = "" ∧
    firstMatchingSecret exampleDeps [unlabelledSecret] "https://github.example.com" =
      some unlabelledSecret ∧
    unlabelledSecret.Labels.lookup exampleDeps.LabelServiceKind = none ∧
    GetGitServiceKind exampleDeps
        (storeOf [⟨"github.example.com",
          ⟨"github.example.com", "https://github.example.com", "github-ent"⟩⟩])
        { items := [unlabelledSecret], listFails := false } "https://github.example.com" =
      ⟨"github-ent", none, [.secretsList, .gitServicesList]⟩ := by
  decide

/-- C5, amended: for a host that is not in the SaaS table, when the first
credential secret whose URL annotation equals the host URL has no service-kind
label, `getServiceKindFromSecrets` fails with the label-missing error, and
`GetGitServiceKind` drops that error and returns what the stored-record lookup
returns: the kind of the first stored record with that URL and no error when
the records can be listed and one has the URL. -/
theorem getGitServiceKind_label_missing_falls_through (d : Deps)
    (gitServices : GitServiceStore) (secrets : SecretStore) (gitServiceURL : String)
    (sec : Secret) (hsaas : d.SaasGitKind gitServiceURL = "")
    (hlist : secrets.listFails = false)
    (hfirst : firstMatchingSecret d secrets.items gitServiceURL = some sec)
    (hlab : sec.Labels.lookup d.LabelServiceKind = none) :
    getServiceKindFromSecrets d secrets gitServiceURL =
      ("", some (.noServiceKindLabel sec.Name gitServiceURL)) ∧
    (GetGitServiceKind d gitServices secrets gitServiceURL).kind =
      (getServiceKindFromGitServices gitServices gitServiceURL).1 ∧
    (GetGitServiceKind d gitServices secrets gitServiceURL).err =
      (getServiceKindFromGitServices gitServices gitServiceURL).2 ∧
    (GetGitServiceKind d gitServices secrets gitServiceURL).calls =
      [.secretsList, .gitServicesList] ∧
    (∀ g : GitService, gitServices.listFails = false →
      firstWithURL gitServices.items gitServiceURL = some g →
      (GetGitServiceKind d gitServices secrets gitServiceURL).kind = g.Spec.GitKind ∧
      (GetGitServiceKind d gitServices secrets gitServiceURL).err = none) := by
  have hs : getServiceKindFromSecrets d secrets gitServiceURL =
      ("", some (.noServiceKindLabel sec.Name gitServiceURL)) := by
    unfold getServiceKindFromSecrets SecretStore.List
    simp only [hlist, Bool.false_eq_true, if_false]
    exact scanSecrets_of_firstMatching_unlabelled d gitServiceURL sec hlab _ hfirst
  have hg : GetGitServiceKind d gitServices secrets gitServiceURL =
      ⟨(getServiceKindFromGitServices gitServices gitServiceURL).1,
        (getServiceKindFromGitServices gitServices gitServiceURL).2,
        [.secretsList, .gitServicesList]⟩ := by
    unfold GetGitServiceKind
    simp [hsaas, hs]
  refine ⟨hs, by rw [hg], by rw [hg], by rw [hg], ?_⟩
  intro g hl hf
  rw [hg]
  simp [getServiceKindFromGitServices, GitServiceStore.List, hl, hf]

/-- C5, amended, at the input of the counterexample. -/
theorem getGitServiceKind_label_missing_falls_through_witness :
    (exampleDeps.SaasGitKind "https://github.example.com" = "" ∧
     firstMatchingSecret exampleDeps [unlabelledSecret] "https://github.example.com" =
       some unlabelledSecret ∧
     unlabelledSecret.Labels.lookup exampleDeps.LabelServiceKind = none) ∧
    getServiceKindFromSecrets exampleDeps { items := [unlabelledSecret], listFails := false }
        "https://github.example.com" =
      ("", some (.noServiceKindLabel "jx-pipeline-git-github-ent"
        "https://github.example.com")) :=
  ⟨by decide,
    (getGitServiceKind_label_missing_falls_through exampleDeps emptyStore
      { items := [unlabelledSecret], listFails := false } "https://github.example.com"
      unlabelledSecret (by decide) rfl (by decide) (by decide)).1⟩

/-- C6: when the fetch of the default workflow fails and
`GetOrderedEnvironments` answers with a map and an ordered name list,
`GetWorkflow` for the empty name returns no error and a workflow named
`DefaultWorkflowName` in namespace `ns` whose steps are, in order,
`CreateWorkflowPromoteStep n false` for exactly those names of the list whose
environment is in the map with automatic promotion strategy and permanent
kind; without such a name the step sequence is empty. -/
theorem getWorkflow_synthesizes_default (d : Deps) (c : WorkflowClient) (ns : String)
    (m : List (String × Environment)) (names : List String)
    (hget : (c.Get d.DefaultWorkflowName).2 ≠ none)
    (henv : c.orderedEnvironments = .inr (m, names)) :
    (GetWorkflow d "" c ns).err = none ∧
    (GetWorkflow d "" c ns).workflow =
      some { Name := d.DefaultWorkflowName, Namespace := ns,
             Steps := (names.filter (qualifies d m)).map
               (fun n => CreateWorkflowPromoteStep d n false) } ∧
    ((∀ n ∈ names, qualifies d m n = false) →
      (GetWorkflow d "" c ns).workflow =
        some { Name := d.DefaultWorkflowName, Namespace := ns, Steps := [] }) := by
  have hw : GetWorkflow d "" c ns =
      ⟨some { Name := d.DefaultWorkflowName, Namespace := ns,
              Steps := (names.filter (qualifies d m)).map
                (fun n => CreateWorkflowPromoteStep d n false) },
        none, c, [.workflowsGet d.DefaultWorkflowName, .getOrderedEnvironments]⟩ := by
    unfold GetWorkflow
    simp [hget, henv, appendPromoteSteps_eq]
  refine ⟨by rw [hw], by rw [hw], ?_⟩
  intro hnone
  rw [hw]
  have : names.filter (qualifies d m) = [] := by
    rw [List.filter_eq_nil_iff]
    intro n hn
    simp [hnone n hn]
  simp [this]

/-- C6 at the input of the specification: `staging`, `production`, `qa` with
only the first two qualifying gives `step-promote-staging` and
`step-promote-production`, each with `Parallel` false. -/
theorem getWorkflow_synthesizes_default_witness :
    ((exampleWorkflowClient.Get exampleDeps.DefaultWorkflowName).2 ≠ none ∧
     exampleWorkflowClient.orderedEnvironments = .inr
      ([("staging", ⟨⟨"Auto", "Permanent"⟩⟩), ("production", ⟨⟨"Auto", "Permanent"⟩⟩),
        ("qa", ⟨⟨"Manual", "Permanent"⟩⟩)],
       ["staging", "production", "qa"])) ∧
    (GetWorkflow exampleDeps "" exampleWorkflowClient "jx").err = none ∧
    (GetWorkflow exampleDeps "" exampleWorkflowClient "jx").workflow =
      some { Name := "default", Namespace := "jx",
             Steps := [⟨"promote", "step-promote-staging", some ⟨"staging", false⟩⟩,
                       ⟨"promote", "step-promote-production", some ⟨"production", false⟩⟩] } :=
  ⟨by decide,
    (getWorkflow_synthesizes_default exampleDeps exampleWorkflowClient "jx" _ _
      (by decide) rfl).1,
    by decide⟩

/-- C7: when the fetch of the stored workflow succeeds, or the normalized name
is not `DefaultWorkflowName`, `GetWorkflow` returns the workflow and the error
of the store's `Get` unchanged, having made that one call only (no call of
`GetOrderedEnvironments`), and the client state is as before. -/
theorem getWorkflow_returns_fetch_result (d : Deps) (name : String) (c : WorkflowClient)
    (ns : String)
    (h : (c.Get (normalizedName d name)).2 = none ∨
      normalizedName d name ≠ d.DefaultWorkflowName) :
    (GetWorkflow d name c ns).workflow = (c.Get (normalizedName d name)).1 ∧
    (GetWorkflow d name c ns).err = (c.Get (normalizedName d name)).2 ∧
    (GetWorkflow d name c ns).calls = [.workflowsGet (normalizedName d name)] ∧
    (GetWorkflow d name c ns).client = c := by
  unfold GetWorkflow
  unfold normalizedName at h ⊢
  simp only [ne_eq] at h ⊢
  rw [if_pos h]
  exact ⟨rfl, rfl, rfl, rfl⟩

/-- C7 at the input of the specification: `custom` is not stored, and the
not-found error of the store comes back unchanged with no workflow. -/
theorem getWorkflow_returns_fetch_result_witness :
    ((exampleWorkflowClient.Get (normalizedName exampleDeps "custom")).2 = none ∨
      normalizedName exampleDeps "custom" ≠ exampleDeps.DefaultWorkflowName) ∧
    (GetWorkflow exampleDeps "custom" exampleWorkflowClient "jx").err =
      some (.notFound "custom") ∧
    (GetWorkflow exampleDeps "custom" exampleWorkflowClient "jx").workflow = none ∧
    (GetWorkflow exampleDeps "custom" exampleWorkflowClient "jx").calls =
      [.workflowsGet "custom"] :=
  ⟨by decide,
    (getWorkflow_returns_fetch_result exampleDeps "custom" exampleWorkflowClient "jx"
      (by decide)).2.1.trans (by decide),
    by decide, by decide⟩

/-! ## Lemmas on the GitService store and the upsert -/

theorem firstWithURL_none_forall (gitUrl : String) :
    ∀ items : List GitService, firstWithURL items gitUrl = none →
      ∀ x ∈ items, x.Spec.URL ≠ gitUrl := by
  intro items
  induction items with
  | nil => intro _ x hx; simp at hx
  | cons y ys ih =>
    intro h x hx
    unfold firstWithURL at h
    by_cases hy : y.Spec.URL = gitUrl
    · simp [hy] at h
    · simp only [hy, if_false] at h
      rcases List.mem_cons.mp hx with rfl | hx
      · exact hy
      · exact ih h x hx

theorem firstWithURL_none_of_forall (gitUrl : String) :
    ∀ items : List GitService, (∀ x ∈ items, x.Spec.URL ≠ gitUrl) →
      firstWithURL items gitUrl = none := by
  intro items
  induction items with
  | nil => intro _; rfl
  | cons y ys ih =>
    intro h
    unfold firstWithURL
    have hy : y.Spec.URL ≠ gitUrl := h y (List.mem_cons_self _ _)
    simp only [hy, if_false]
    exact ih (fun x hx => h x (List.mem_cons_of_mem _ hx))

theorem firstWithURL_split (gitUrl : String) (gs : GitService) :
    ∀ items : List GitService, firstWithURL items gitUrl = some gs →
      ∃ pre post, items = pre ++ gs :: post ∧ (∀ x ∈ pre, x.Spec.URL ≠ gitUrl) ∧
        gs.Spec.URL = gitUrl := by
  intro items
  induction items with
  | nil => intro h; simp [firstWithURL] at h
  | cons y ys ih =>
    intro h
    unfold firstWithURL at h
    by_cases hy : y.Spec.URL = gitUrl
    · simp only [hy, if_true, Option.some.injEq] at h
      subst h
      exact ⟨[], ys, rfl, by simp, hy⟩
    · simp only [hy, if_false] at h
      obtain ⟨pre, post, he, hp, hu⟩ := ih h
      refine ⟨y :: pre, post, by simp [he], ?_, hu⟩
      intro x hx
      rcases List.mem_cons.mp hx with rfl | hx
      · exact hy
      · exact hp x hx

theorem findByName_split (name : String) (g : GitService) :
    ∀ items : List GitService, findByName items name = some g →
      ∃ pre post, items = pre ++ g :: post ∧ (∀ x ∈ pre, x.Name ≠ name) ∧ g.Name = name := by
  intro items
  induction items with
  | nil => intro h; simp [findByName] at h
  | cons y ys ih =>
    intro h
    unfold findByName at h
    by_cases hy : y.Name = name
    · simp only [hy, if_true, Option.some.injEq] at h
      subst h
      exact ⟨[], ys, rfl, by simp, hy⟩
    · simp only [hy, if_false] at h
      obtain ⟨pre, post, he, hp, hu⟩ := ih h
      refine ⟨y :: pre, post, by simp [he], ?_, hu⟩
      intro x hx
      rcases List.mem_cons.mp hx with rfl | hx
      · exact hy
      · exact hp x hx

theorem findByName_none_of_forall (name : String) :
    ∀ items : List GitService, (∀ x ∈ items, x.Name ≠ name) →
      findByName items name = none := by
  intro items
  induction items with
  | nil => intro _; rfl
  | cons y ys ih =>
    intro h
    unfold findByName
    have hy : y.Name ≠ name := h y (List.mem_cons_self _ _)
    simp only [hy, if_false]
    exact ih (fun x hx => h x (List.mem_cons_of_mem _ hx))

theorem findByName_of_split (name : String) (g : GitService) (post : List GitService) :
    ∀ pre : List GitService, (∀ x ∈ pre, x.Name ≠ name) → g.Name = name →
      findByName (pre ++ g :: post) name = some g := by
  intro pre
  induction pre with
  | nil => intro _ hg; simp [findByName, hg]
  | cons y ys ih =>
    intro h hg
    have hy : y.Name ≠ name := h y (List.mem_cons_self _ _)
    simp only [List.cons_append, findByName, hy, if_false]
    exact ih (fun x hx => h x (List.mem_cons_of_mem _ hx)) hg

theorem replaceByName_split (g y : GitService) (post : List GitService) :
    ∀ pre : List GitService, (∀ x ∈ pre, x.Name ≠ g.Name) → y.Name = g.Name →
      replaceByName (pre ++ y :: post) g = pre ++ g :: post := by
  intro pre
  induction pre with
  | nil => intro _ hy; simp [replaceByName, hy]
  | cons z zs ih =>
    intro h hy
    have hz : z.Name ≠ g.Name := h z (List.mem_cons_self _ _)
    rw [List.cons_append, replaceByName, if_neg hz,
      ih (fun x hx => h x (List.mem_cons_of_mem _ hx)) hy]
    rfl

theorem withURL_eq_nil (gitUrl : String) (items : List GitService)
    (h : ∀ x ∈ items, x.Spec.URL ≠ gitUrl) : withURL items gitUrl = [] := by
  unfold withURL
  rw [List.filter_eq_nil_iff]
  intro x hx
  simp [h x hx]

theorem withURL_split (gitUrl : String) (g : GitService) (pre post : List GitService)
    (hpre : ∀ x ∈ pre, x.Spec.URL ≠ gitUrl) (hpost : ∀ x ∈ post, x.Spec.URL ≠ gitUrl)
    (hg : g.Spec.URL = gitUrl) : withURL (pre ++ g :: post) gitUrl = [g] := by
  have h1 := withURL_eq_nil gitUrl pre hpre
  have h2 := withURL_eq_nil gitUrl post hpost
  unfold withURL at *
  rw [List.filter_append, List.filter_cons, h1, h2]
  simp [hg]

theorem firstWithURL_of_split (gitUrl : String) (g : GitService) (post : List GitService) :
    ∀ pre : List GitService, (∀ x ∈ pre, x.Spec.URL ≠ gitUrl) → g.Spec.URL = gitUrl →
      firstWithURL (pre ++ g :: post) gitUrl = some g := by
  intro pre
  induction pre with
  | nil => intro _ hg; simp [firstWithURL, hg]
  | cons y ys ih =>
    intro h hg
    have hy : y.Spec.URL ≠ gitUrl := h y (List.mem_cons_self _ _)
    simp only [List.cons_append, firstWithURL, hy, if_false]
    exact ih (fun x hx => h x (List.mem_cons_of_mem _ hx)) hg

theorem firstWithURL_replaceByName (gitUrl : String) (gs g : GitService)
    (hname : g.Name = gs.Name) (hurl : g.Spec.URL = gitUrl) :
    ∀ items : List GitService, firstWithURL items gitUrl = some gs →
      firstWithURL (replaceByName items g) gitUrl = some g := by
  intro items
  induction items with
  | nil => intro h; simp [firstWithURL] at h
  | cons x xs ih =>
    intro h
    unfold replaceByName
    by_cases hx : x.Name = g.Name
    · simp [hx, firstWithURL, hurl]
    · simp only [hx, if_false]
      unfold firstWithURL at h ⊢
      by_cases hxu : x.Spec.URL = gitUrl
      · simp only [hxu, if_true, Option.some.injEq] at h
        subst h
        exact absurd hname.symm hx
      · simp only [hxu, if_false] at h ⊢
        exact ih h

theorem list_ok (s : GitServiceStore) (h : s.listFails = false) : s.List = .ok s.items := by
  simp [GitServiceStore.List, h]

theorem get_ok_inv (s : GitServiceStore) (name : String) (c : GitService)
    (h : s.Get name = .ok c) : findByName s.items name = some c := by
  unfold GitServiceStore.Get at h
  by_cases hf : s.getFails = true
  · simp [hf] at h
  · cases hc : findByName s.items name with
    | none => simp [hf, hc] at h
    | some g => simp [hf, hc] at h; rw [h]

theorem create_ok_inv (s s' : GitServiceStore) (g : GitService)
    (h : s.Create g = .ok s') :
    s' = { s with items := s.items ++ [g] } ∧ findByName s.items g.Name = none := by
  obtain ⟨items, lf, gf, cf, uf⟩ := s
  unfold GitServiceStore.Create at h
  cases cf with
  | true => simp at h
  | false =>
    cases hc : findByName items g.Name with
    | none => simp [hc] at h; exact ⟨h.symm, rfl⟩
    | some c => simp [hc] at h

theorem update_ok_inv (s s' : GitServiceStore) (g : GitService)
    (h : s.Update g = .ok s') :
    s' = { s with items := replaceByName s.items g } ∧
      ∃ c, findByName s.items g.Name = some c := by
  obtain ⟨items, lf, gf, cf, uf⟩ := s
  unfold GitServiceStore.Update at h
  cases uf with
  | true => simp at h
  | false =>
    cases hc : findByName items g.Name with
    | none => simp [hc] at h
    | some c => simp [hc] at h; exact ⟨h.symm, c, rfl⟩

theorem update_ok (s : GitServiceStore) (g c : GitService) (hf : s.updateFails = false)
    (hc : findByName s.items g.Name = some c) :
    s.Update g = .ok { s with items := replaceByName s.items g } := by
  obtain ⟨items, lf, gf, cf, uf⟩ := s
  simp only at hf hc
  subst hf
  simp [GitServiceStore.Update, hc]

theorem ensureByName_success (d : Deps) (s : GitServiceStore) (kind n gitUrl : String)
    (hno : firstWithURL s.items gitUrl = none)
    (herr : (ensureByName d s kind n gitUrl).err = none) :
    ((ensureByName d s kind n gitUrl).store =
        { s with items := s.items ++ [newGitService d kind n gitUrl] } ∧
      (ensureByName d s kind n gitUrl).calls =
        [.gitServicesList, .gitServicesGet n,
          .gitServicesCreate (newGitService d kind n gitUrl)]) ∨
    (∃ cur, findByName s.items n = some cur ∧
      (ensureByName d s kind n gitUrl).store =
        { s with items := replaceByName s.items (withURLAndKind cur gitUrl kind) } ∧
      (ensureByName d s kind n gitUrl).calls =
        [.gitServicesList, .gitServicesGet n,
          .gitServicesUpdate (withURLAndKind cur gitUrl kind)]) := by
  unfold ensureByName at herr ⊢
  cases hget : s.Get n with
  | error e =>
    simp only [hget] at herr ⊢
    cases hcr : s.Create (newGitService d kind n gitUrl) with
    | error e' => simp [hcr] at herr
    | ok s' =>
      left
      simp only [hcr]
      exact ⟨(create_ok_inv _ _ _ hcr).1, trivial⟩
  | ok cur =>
    have hcur := get_ok_inv _ _ _ hget
    obtain ⟨pre, post, he, _, _⟩ := findByName_split _ _ _ hcur
    have hcu : cur.Spec.URL ≠ gitUrl :=
      firstWithURL_none_forall gitUrl s.items hno cur (by rw [he]; simp)
    have hc : cur.Spec.URL ≠ (newGitService d kind n gitUrl).Spec.URL ∨
        cur.Spec.GitKind ≠ (newGitService d kind n gitUrl).Spec.GitKind := Or.inl hcu
    simp only [hget, if_pos hc] at herr ⊢
    have hU : (newGitService d kind n gitUrl).Spec.URL = gitUrl := rfl
    have hK : (newGitService d kind n gitUrl).Spec.GitKind = kind := rfl
    rw [hU, hK] at herr ⊢
    cases hup : s.Update (withURLAndKind cur gitUrl kind) with
    | error e' => simp [hup] at herr
    | ok s' =>
      right
      refine ⟨cur, hcur, ?_⟩
      simp only [hup]
      exact ⟨(update_ok_inv _ _ _ hup).1, trivial⟩

theorem nodup_map_split_pre {β : Type} (f : GitService → β) (pre post : List GitService)
    (g : GitService) (h : ((pre ++ g :: post).map f).Nodup) : ∀ x ∈ pre, f x ≠ f g := by
  intro x hx heq
  rw [List.map_append, List.map_cons] at h
  have hd := (List.nodup_append.mp h).2.2
  exact hd (List.mem_map_of_mem f hx) (by rw [heq]; exact List.mem_cons_self _ _)

theorem nodup_map_split_post {β : Type} (f : GitService → β) (pre post : List GitService)
    (g : GitService) (h : ((pre ++ g :: post).map f).Nodup) : ∀ x ∈ post, f x ≠ f g := by
  intro x hx heq
  rw [List.map_append, List.map_cons] at h
  have hc := (List.nodup_append.mp h).2.1
  have hn := (List.nodup_cons.mp hc).1
  exact hn (by rw [← heq]; exact List.mem_map_of_mem f hx)

theorem ensure_success_cases (d : Deps) (s : GitServiceStore) (kind name gitUrl : String)
    (hn : ¬ (kind = "" ∨ kind = "github" ∨ gitUrl = ""))
    (herr : (EnsureGitServiceExistsForHost d s kind name gitUrl).err = none) :
    s.listFails = false ∧
    ((∃ gs, firstWithURL s.items gitUrl = some gs ∧ gs.Spec.GitKind = kind ∧
        (EnsureGitServiceExistsForHost d s kind name gitUrl).store = s) ∨
     (∃ gs c, firstWithURL s.items gitUrl = some gs ∧ gs.Spec.GitKind ≠ kind ∧
        findByName s.items gs.Name = some c ∧
        (EnsureGitServiceExistsForHost d s kind name gitUrl).store =
          { s with items := replaceByName s.items (withKind gs kind) }) ∨
     (firstWithURL s.items gitUrl = none ∧ ∃ n,
        (EnsureGitServiceExistsForHost d s kind name gitUrl).store =
          { s with items := s.items ++ [newGitService d kind n gitUrl] }) ∨
     (firstWithURL s.items gitUrl = none ∧ ∃ n cur, findByName s.items n = some cur ∧
        (EnsureGitServiceExistsForHost d s kind name gitUrl).store =
          { s with items := replaceByName s.items (withURLAndKind cur gitUrl kind) })) := by
  have hl : s.listFails = false := by
    unfold EnsureGitServiceExistsForHost at herr
    rw [if_neg hn] at herr
    cases h : s.listFails with
    | false => rfl
    | true => simp [GitServiceStore.List, h] at herr
  refine ⟨hl, ?_⟩
  unfold EnsureGitServiceExistsForHost at herr ⊢
  rw [if_neg hn] at herr ⊢
  rw [list_ok s hl] at herr ⊢
  simp only at herr ⊢
  cases hf : firstWithURL s.items gitUrl with
  | some gs =>
    simp only [hf] at herr ⊢
    by_cases hk : gs.Spec.GitKind = kind
    · left
      exact ⟨gs, rfl, hk, by simp [hk]⟩
    · right; left
      have hk' : gs.Spec.GitKind ≠ kind := hk
      simp only [if_pos hk'] at herr ⊢
      cases hup : s.Update (withKind gs kind) with
      | error e => simp [hup] at herr
      | ok s' =>
        obtain ⟨hs', c, hc⟩ := update_ok_inv _ _ _ hup
        exact ⟨gs, c, rfl, hk, hc, hs'⟩
  | none =>
    simp only [hf] at herr ⊢
    right; right
    by_cases hname : name = ""
    · simp only [hname, if_true] at herr ⊢
      cases hh : d.urlHost gitUrl with
      | none => simp [hh] at herr
      | some host =>
        simp only [hh] at herr ⊢
        rcases ensureByName_success d s kind host gitUrl hf herr with h | ⟨cur, hc, h⟩
        · left; exact ⟨trivial, host, h.1⟩
        · right; exact ⟨trivial, host, cur, hc, h.1⟩
    · simp only [hname, if_false] at herr ⊢
      rcases ensureByName_success d s kind name gitUrl hf herr with h | ⟨cur, hc, h⟩
      · left; exact ⟨trivial, name, h.1⟩
      · right; exact ⟨trivial, name, cur, hc, h.1⟩

theorem firstWithURL_append_new (gitUrl : String) (g : GitService) (items : List GitService)
    (hno : firstWithURL items gitUrl = none) (hg : g.Spec.URL = gitUrl) :
    firstWithURL (items ++ [g]) gitUrl = some g :=
  firstWithURL_of_split gitUrl g [] items (firstWithURL_none_forall gitUrl items hno) hg

theorem firstWithURL_after_success (d : Deps) (s : GitServiceStore) (kind name gitUrl : String)
    (hn : ¬ (kind = "" ∨ kind = "github" ∨ gitUrl = ""))
    (herr : (EnsureGitServiceExistsForHost d s kind name gitUrl).err = none) :
    (EnsureGitServiceExistsForHost d s kind name gitUrl).store.listFails = false ∧
    ∃ g, firstWithURL (EnsureGitServiceExistsForHost d s kind name gitUrl).store.items gitUrl =
        some g ∧ g.Spec.GitKind = kind := by
  obtain ⟨hl, h⟩ := ensure_success_cases d s kind name gitUrl hn herr
  rcases h with ⟨gs, hf, hk, hs⟩ | ⟨gs, c, hf, _, _, hs⟩ | ⟨hf, n, hs⟩ | ⟨hf, n, cur, hc, hs⟩
  · rw [hs]; exact ⟨hl, gs, hf, hk⟩
  · rw [hs]
    refine ⟨hl, withKind gs kind, ?_, rfl⟩
    obtain ⟨_, _, _, _, hu⟩ := firstWithURL_split _ _ _ hf
    exact firstWithURL_replaceByName gitUrl gs (withKind gs kind) rfl hu _ hf
  · rw [hs]
    exact ⟨hl, newGitService d kind n gitUrl, firstWithURL_append_new _ _ _ hf rfl, rfl⟩
  · rw [hs]
    refine ⟨hl, withURLAndKind cur gitUrl kind, ?_, rfl⟩
    obtain ⟨pre, post, he, hp, hcn⟩ := findByName_split _ _ _ hc
    have hrep : replaceByName s.items (withURLAndKind cur gitUrl kind) =
        pre ++ withURLAndKind cur gitUrl kind :: post := by
      rw [he]
      exact replaceByName_split _ cur post pre (fun x hx => by
        have := hp x hx
        simpa [withURLAndKind, hcn] using this) rfl
    simp only [hrep]
    have hall := firstWithURL_none_forall gitUrl s.items hf
    exact firstWithURL_of_split gitUrl _ post pre
      (fun x hx => hall x (by rw [he]; simp [hx])) rfl

theorem ensure_of_settled (d : Deps) (s : GitServiceStore) (kind name gitUrl : String)
    (g : GitService) (hn : ¬ (kind = "" ∨ kind = "github" ∨ gitUrl = ""))
    (hl : s.listFails = false) (hf : firstWithURL s.items gitUrl = some g)
    (hk : g.Spec.GitKind = kind) :
    EnsureGitServiceExistsForHost d s kind name gitUrl = ⟨none, s, [], [.gitServicesList]⟩ := by
  unfold EnsureGitServiceExistsForHost
  rw [if_neg hn, list_ok s hl]
  simp [hf, hk]

theorem update_unavailable (s : GitServiceStore) (g : GitService) (hf : s.updateFails = true) :
    s.Update g = .error .unavailable := by
  simp [GitServiceStore.Update, hf]

theorem get_error_of_absent (s : GitServiceStore) (name : String)
    (h : ∀ x ∈ s.items, x.Name ≠ name) : ∃ e, s.Get name = .error e := by
  unfold GitServiceStore.Get
  by_cases hf : s.getFails = true
  · exact ⟨.unavailable, by simp [hf]⟩
  · exact ⟨.notFound name, by simp [hf, findByName_none_of_forall name s.items h]⟩

theorem create_ok (s : GitServiceStore) (g : GitService) (hf : s.createFails = false)
    (h : ∀ x ∈ s.items, x.Name ≠ g.Name) :
    s.Create g = .ok { s with items := s.items ++ [g] } := by
  obtain ⟨items, lf, gf, cf, uf⟩ := s
  simp only at hf h
  subst hf
  simp [GitServiceStore.Create, findByName_none_of_forall g.Name items h]

theorem create_alreadyExists (s : GitServiceStore) (g c : GitService)
    (hf : s.createFails = false) (h : findByName s.items g.Name = some c) :
    s.Create g = .error (.alreadyExists g.Name) := by
  simp [GitServiceStore.Create, hf, h]

theorem ensure_of_no_url_match (d : Deps) (s : GitServiceStore) (kind name gitUrl n : String)
    (hn : ¬ (kind = "" ∨ kind = "github" ∨ gitUrl = "")) (hl : s.listFails = false)
    (hno : ∀ x ∈ s.items, x.Spec.URL ≠ gitUrl)
    (hname : (name ≠ "" ∧ n = name) ∨ (name = "" ∧ d.urlHost gitUrl = some n)) :
    EnsureGitServiceExistsForHost d s kind name gitUrl = ensureByName d s kind n gitUrl := by
  unfold EnsureGitServiceExistsForHost
  rw [if_neg hn, list_ok s hl]
  simp only [firstWithURL_none_of_forall gitUrl s.items hno]
  rcases hname with ⟨h1, h2⟩ | ⟨h1, h2⟩
  · subst h2; simp [h1]
  · simp [h1, h2]

theorem list_ok_inv (s : GitServiceStore) (list : List GitService) (h : s.List = .ok list) :
    s.listFails = false ∧ list = s.items := by
  unfold GitServiceStore.List at h
  cases hl : s.listFails with
  | true => simp [hl] at h
  | false => simp [hl] at h; exact ⟨rfl, h.symm⟩

/-! ## Claims on the upsert -/

/-- C1: on a store keyed by record name in which at most one record has each
URL, for `kind` neither empty nor `github` and a non-empty `gitUrl`: when
`EnsureGitServiceExistsForHost` returns no error, exactly one record of the
resulting store has `Spec.URL = gitUrl`, and its `Spec.GitKind` is `kind`. -/
theorem ensure_leaves_one_record_for_url (d : Deps) (s : GitServiceStore)
    (kind name gitUrl : String) (hnames : NamesUnique s) (hurls : URLsUnique s)
    (hk : kind ≠ "") (hg : kind ≠ "github") (hu : gitUrl ≠ "")
    (herr : (EnsureGitServiceExistsForHost d s kind name gitUrl).err = none) :
    ∃ g, withURL (EnsureGitServiceExistsForHost d s kind name gitUrl).store.items gitUrl = [g] ∧
      g.Spec.GitKind = kind := by
  have hn : ¬ (kind = "" ∨ kind = "github" ∨ gitUrl = "") := by
    rintro (h | h | h)
    · exact hk h
    · exact hg h
    · exact hu h
  obtain ⟨_, h⟩ := ensure_success_cases d s kind name gitUrl hn herr
  rcases h with ⟨gs, hf, hkind, hs⟩ | ⟨gs, c, hf, _, _, hs⟩ | ⟨hf, n, hs⟩ | ⟨hf, n, cur, hc, hs⟩
  · rw [hs]
    obtain ⟨pre, post, he, hp, hgu⟩ := firstWithURL_split _ _ _ hf
    refine ⟨gs, ?_, hkind⟩
    rw [he]
    refine withURL_split gitUrl gs pre post hp ?_ hgu
    intro x hx
    have := nodup_map_split_post (fun g => g.Spec.URL) pre post gs (by
      have := hurls; unfold URLsUnique at this; rwa [he] at this) x hx
    simpa [hgu] using this
  · rw [hs]
    obtain ⟨pre, post, he, hp, hgu⟩ := firstWithURL_split _ _ _ hf
    have hpn : ∀ x ∈ pre, x.Name ≠ (withKind gs kind).Name :=
      nodup_map_split_pre (fun g => g.Name) pre post gs (by
        have := hnames; unfold NamesUnique at this; rwa [he] at this)
    have hpost : ∀ x ∈ post, x.Spec.URL ≠ gitUrl := by
      intro x hx
      have := nodup_map_split_post (fun g => g.Spec.URL) pre post gs (by
        have := hurls; unfold URLsUnique at this; rwa [he] at this) x hx
      simpa [hgu] using this
    refine ⟨withKind gs kind, ?_, rfl⟩
    simp only [he]
    rw [replaceByName_split (withKind gs kind) gs post pre hpn rfl]
    exact withURL_split gitUrl _ pre post hp hpost hgu
  · rw [hs]
    refine ⟨newGitService d kind n gitUrl, ?_, rfl⟩
    exact withURL_split gitUrl _ s.items [] (firstWithURL_none_forall _ _ hf)
      (by intro x hx; simp at hx) rfl
  · rw [hs]
    obtain ⟨pre, post, he, hp, hcn⟩ := findByName_split _ _ _ hc
    have hall := firstWithURL_none_forall gitUrl s.items hf
    refine ⟨withURLAndKind cur gitUrl kind, ?_, rfl⟩
    simp only [he]
    rw [replaceByName_split (withURLAndKind cur gitUrl kind) cur post pre
      (fun x hx => by
        have := hp x hx
        simpa [withURLAndKind, hcn] using this) rfl]
    exact withURL_split gitUrl _ pre post
      (fun x hx => hall x (by rw [he]; simp [hx]))
      (fun x hx => hall x (by rw [he]; simp [hx])) rfl

/-- C1 at a concrete input: the record for the URL has another kind, and after
the call the one record with that URL has kind `gitea`. -/
theorem ensure_leaves_one_record_for_url_witness :
    (NamesUnique exampleStore ∧ URLsUnique exampleStore ∧
      (EnsureGitServiceExistsForHost exampleDeps exampleStore "gitea" "git"
        "https://git.example.com").err = none) ∧
    ∃ g, withURL (EnsureGitServiceExistsForHost exampleDeps exampleStore "gitea" "git"
        "https://git.example.com").store.items "https://git.example.com" = [g] ∧
      g.Spec.GitKind = "gitea" :=
  ⟨by decide,
    ensure_leaves_one_record_for_url exampleDeps exampleStore "gitea" "git"
      "https://git.example.com" (by decide) (by decide) (by decide) (by decide) (by decide)
      (by decide)⟩

/-- C2 as stated fails at the reserved kind `github`: the first call on the
empty store succeeds, and after the second call the store holds no record, not
exactly one. -/
theorem ensure_twice_on_empty_counterexample :
    (EnsureGitServiceExistsForHost exampleDeps emptyStore "github" "" "https://github.com").err =
      none ∧
    (EnsureGitServiceExistsForHost exampleDeps
      (EnsureGitServiceExistsForHost exampleDeps emptyStore "github" ""
        "https://github.com").store
      "github" "" "https://github.com").store.items = [] := by
  decide

/-- C2, amended: when a first call of `EnsureGitServiceExistsForHost` returns no
error, a second call with the same `kind`, `name` and `gitUrl` on the resulting
store returns no error, makes no `Create` and no `Update`, and leaves the store
as the first call left it. Starting from a store without records, the two calls
leave exactly one record, with the URL and the kind requested, when `kind` is
neither empty nor `github` and `gitUrl` is not empty, and no record otherwise. -/
theorem ensure_idempotent (d : Deps) (s : GitServiceStore) (kind name gitUrl : String)
    (h1 : (EnsureGitServiceExistsForHost d s kind name gitUrl).err = none) :
    (EnsureGitServiceExistsForHost d
      (EnsureGitServiceExistsForHost d s kind name gitUrl).store kind name gitUrl).err = none ∧
    (∀ c ∈ (EnsureGitServiceExistsForHost d
      (EnsureGitServiceExistsForHost d s kind name gitUrl).store kind name gitUrl).calls,
        c.isWrite = false) ∧
    (EnsureGitServiceExistsForHost d
      (EnsureGitServiceExistsForHost d s kind name gitUrl).store kind name gitUrl).store =
        (EnsureGitServiceExistsForHost d s kind name gitUrl).store ∧
    (s.items = [] → ¬ (kind = "" ∨ kind = "github" ∨ gitUrl = "") →
      ∃ g, (EnsureGitServiceExistsForHost d
        (EnsureGitServiceExistsForHost d s kind name gitUrl).store kind name gitUrl).store.items =
          [g] ∧ g.Spec.URL = gitUrl ∧ g.Spec.GitKind = kind) ∧
    (s.items = [] → (kind = "" ∨ kind = "github" ∨ gitUrl = "") →
      (EnsureGitServiceExistsForHost d
        (EnsureGitServiceExistsForHost d s kind name gitUrl).store kind name gitUrl).store.items =
          []) := by
  by_cases hn : kind = "" ∨ kind = "github" ∨ gitUrl = ""
  · have e1 : EnsureGitServiceExistsForHost d s kind name gitUrl = ⟨none, s, [], []⟩ := by
      unfold EnsureGitServiceExistsForHost
      rw [if_pos hn]
    rw [e1]
    simp only
    rw [e1]
    refine ⟨rfl, by simp, rfl, fun _ h => absurd hn h, fun h _ => h⟩
  · obtain ⟨hl, g, hf, hgk⟩ := firstWithURL_after_success d s kind name gitUrl hn h1
    have e2 := ensure_of_settled d (EnsureGitServiceExistsForHost d s kind name gitUrl).store
      kind name gitUrl g hn hl hf hgk
    rw [e2]
    refine ⟨rfl, by simp [Call.isWrite], rfl, ?_, fun _ h => absurd h hn⟩
    intro hempty _
    simp only
    obtain ⟨_, h⟩ := ensure_success_cases d s kind name gitUrl hn h1
    rcases h with ⟨gs, hf', _, _⟩ | ⟨gs, c, hf', _, _, _⟩ | ⟨_, n, hs⟩ | ⟨_, n, cur, hc, _⟩
    · rw [hempty] at hf'; simp [firstWithURL] at hf'
    · rw [hempty] at hf'; simp [firstWithURL] at hf'
    · rw [hs, hempty]
      exact ⟨newGitService d kind n gitUrl, rfl, rfl, rfl⟩
    · rw [hempty] at hc; simp [findByName] at hc

/-- C2, amended, at the input of the specification: `github-ent` for
`https://github.example.com` on the empty store, called twice, leaves the one
record `github.example.com`. -/
theorem ensure_idempotent_witness :
    (EnsureGitServiceExistsForHost exampleDeps emptyStore "github-ent" ""
      "https://github.example.com").err = none ∧
    (EnsureGitServiceExistsForHost exampleDeps
      (EnsureGitServiceExistsForHost exampleDeps emptyStore "github-ent" ""
        "https://github.example.com").store
      "github-ent" "" "https://github.example.com").store =
      (EnsureGitServiceExistsForHost exampleDeps emptyStore "github-ent" ""
        "https://github.example.com").store ∧
    (EnsureGitServiceExistsForHost exampleDeps emptyStore "github-ent" ""
        "https://github.example.com").store.items =
      [⟨"github.example.com",
        ⟨"github.example.com", "https://github.example.com", "github-ent"⟩⟩] :=
  ⟨by decide,
    (ensure_idempotent exampleDeps emptyStore "github-ent" "" "https://github.example.com"
      (by decide)).2.2.1,
    by decide⟩

/-- C8 as stated fails on a store whose `List` fails: a record has the URL,
the first such record has another kind than the one requested, and the call
issues no write at all; it returns the error of `List`. -/
theorem ensure_update_by_url_list_failure_counterexample :
    NamesUnique { twoForOneURL with listFails := true } ∧
    ({ twoForOneURL with listFails := true } : GitServiceStore).items =
      [] ++ ⟨"first", ⟨"first", "https://git.example.com", "gitlab"⟩⟩ ::
        [⟨"second", ⟨"second", "https://git.example.com", "gitlab"⟩⟩,
         ⟨"git", ⟨"git", "https://other.example.com", "bitbucketserver"⟩⟩] ∧
    (EnsureGitServiceExistsForHost exampleDeps { twoForOneURL with listFails := true }
        "gitea" "git" "https://git.example.com").calls = [.gitServicesList] ∧
    ((EnsureGitServiceExistsForHost exampleDeps { twoForOneURL with listFails := true }
        "gitea" "git" "https://git.example.com").calls.filter Call.isWrite).length = 0 ∧
    (EnsureGitServiceExistsForHost exampleDeps { twoForOneURL with listFails := true }
        "gitea" "git" "https://git.example.com").err = some (.store .unavailable) := by
  decide

/-- C8, amended: on a store keyed by record name whose records can be listed,
for `kind` neither empty nor `github` and a non-empty `gitUrl`: when the
records are `pre`, then `gs`, then `post`, no record of `pre` has
`Spec.URL = gitUrl`, `gs` has it, and the kind of `gs` is not `kind`, the call
makes exactly one write, an `Update` of the record with the record name and
`Spec.Name` of `gs`, the URL `gitUrl` and the kind `kind`. The records of `pre`
and of `post`, whatever their URL or name, stay as they were and where they
were; `gs` is replaced by the updated record when the store accepts the
`Update`, and the store is unchanged when it refuses it. -/
theorem ensure_updates_kind_of_first_url_match (d : Deps) (s : GitServiceStore)
    (kind name gitUrl : String) (pre post : List GitService) (gs : GitService)
    (hk : kind ≠ "") (hg : kind ≠ "github") (hu : gitUrl ≠ "")
    (hnames : NamesUnique s) (hl : s.listFails = false)
    (hitems : s.items = pre ++ gs :: post)
    (hpre : ∀ x ∈ pre, x.Spec.URL ≠ gitUrl) (hurl : gs.Spec.URL = gitUrl)
    (hd : gs.Spec.GitKind ≠ kind) :
    (EnsureGitServiceExistsForHost d s kind name gitUrl).calls =
      [.gitServicesList, .gitServicesUpdate ⟨gs.Name, ⟨gs.Spec.Name, gitUrl, kind⟩⟩] ∧
    ((EnsureGitServiceExistsForHost d s kind name gitUrl).calls.filter Call.isWrite).length = 1 ∧
    ((s.updateFails = false ∧
        (EnsureGitServiceExistsForHost d s kind name gitUrl).err = none ∧
        (EnsureGitServiceExistsForHost d s kind name gitUrl).store =
          { s with items := pre ++ ⟨gs.Name, ⟨gs.Spec.Name, gitUrl, kind⟩⟩ :: post }) ∨
     (s.updateFails = true ∧
        (EnsureGitServiceExistsForHost d s kind name gitUrl).err =
          some (.updateKindFailed gs.Name .unavailable) ∧
        (EnsureGitServiceExistsForHost d s kind name gitUrl).store = s)) := by
  have hn : ¬ (kind = "" ∨ kind = "github" ∨ gitUrl = "") := by
    rintro (h | h | h)
    · exact hk h
    · exact hg h
    · exact hu h
  have hf : firstWithURL s.items gitUrl = some gs := by
    rw [hitems]; exact firstWithURL_of_split gitUrl gs post pre hpre hurl
  have hwk : withKind gs kind = ⟨gs.Name, ⟨gs.Spec.Name, gitUrl, kind⟩⟩ := by
    rw [← hurl]; rfl
  have hpn : ∀ x ∈ pre, x.Name ≠ (withKind gs kind).Name :=
    nodup_map_split_pre (fun g => g.Name) pre post gs (by
      have := hnames; unfold NamesUnique at this; rwa [hitems] at this)
  have hfind : findByName s.items (withKind gs kind).Name = some gs := by
    rw [hitems]; exact findByName_of_split _ gs post pre hpn rfl
  have hrep : replaceByName s.items (withKind gs kind) = pre ++ withKind gs kind :: post := by
    rw [hitems]; exact replaceByName_split (withKind gs kind) gs post pre hpn rfl
  have hunf : EnsureGitServiceExistsForHost d s kind name gitUrl =
      match s.Update (withKind gs kind) with
      | .error e =>
        ⟨some (.updateKindFailed gs.Name e), s,
          [kindChangedNotice gs.Name gs.Spec.GitKind kind],
          [.gitServicesList, .gitServicesUpdate (withKind gs kind)]⟩
      | .ok s' =>
        ⟨none, s', [kindChangedNotice gs.Name gs.Spec.GitKind kind],
          [.gitServicesList, .gitServicesUpdate (withKind gs kind)]⟩ := by
    unfold EnsureGitServiceExistsForHost
    rw [if_neg hn, list_ok s hl]
    simp only [hf]
    rw [if_pos hd]
  by_cases huf : s.updateFails = true
  · rw [hunf, update_unavailable s _ huf, ← hwk]
    exact ⟨rfl, by simp [Call.isWrite], Or.inr ⟨huf, rfl, rfl⟩⟩
  · have huf' : s.updateFails = false := by simpa using huf
    rw [hunf, update_ok s _ gs huf' hfind, hrep, ← hwk]
    exact ⟨rfl, by simp [Call.isWrite], Or.inl ⟨huf', rfl, rfl⟩⟩

/-- C8, amended, at the input of the specification: the record stored under the
supplied name `git` comes first and has another URL, two later records share
the URL; only the first of the two is updated, and the record `git` and the
second record with the URL stay as they were. -/
theorem ensure_updates_kind_of_first_url_match_witness :
    (NamesUnique nameBeforeURL ∧ nameBeforeURL.listFails = false ∧
      nameBeforeURL.items =
        [⟨"git", ⟨"git", "https://other.example.com", "bitbucketserver"⟩⟩] ++
          ⟨"first", ⟨"first", "https://git.example.com", "gitlab"⟩⟩ ::
            [⟨"second", ⟨"second", "https://git.example.com", "gitlab"⟩⟩]) ∧
    (EnsureGitServiceExistsForHost exampleDeps nameBeforeURL "gitea" "git"
        "https://git.example.com").calls =
      [.gitServicesList, .gitServicesUpdate
        ⟨"first", ⟨"first", "https://git.example.com", "gitea"⟩⟩] ∧
    (EnsureGitServiceExistsForHost exampleDeps nameBeforeURL "gitea" "git"
        "https://git.example.com").store.items =
      [⟨"git", ⟨"git", "https://other.example.com", "bitbucketserver"⟩⟩,
       ⟨"first", ⟨"first", "https://git.example.com", "gitea"⟩⟩,
       ⟨"second", ⟨"second", "https://git.example.com", "gitlab"⟩⟩] :=
  ⟨by decide,
    (ensure_updates_kind_of_first_url_match exampleDeps nameBeforeURL "gitea" "git"
      "https://git.example.com"
      [⟨"git", ⟨"git", "https://other.example.com", "bitbucketserver"⟩⟩]
      [⟨"second", ⟨"second", "https://git.example.com", "gitlab"⟩⟩]
      ⟨"first", ⟨"first", "https://git.example.com", "gitlab"⟩⟩
      (by decide) (by decide) (by decide) (by decide) rfl rfl (by decide) rfl
      (by decide)).1,
    by decide⟩

/-- C9 as stated fails: no record has the URL and no record is stored under
the supplied name `my server`, yet nothing is created. The `Get` under the
supplied name misses the record stored under the sanitized name, the `Create`
under the sanitized name is rejected, and the call returns the error. -/
theorem ensure_create_rejected_counterexample :
    (∀ x ∈ myServerStore.items, x.Spec.URL ≠ "http://new.example.com") ∧
    (∀ x ∈ myServerStore.items, x.Name ≠ "my server") ∧
    (EnsureGitServiceExistsForHost exampleDeps myServerStore "gitea" "my server"
        "http://new.example.com").err =
      some (.createFailed "my-server" (.alreadyExists "my-server")) ∧
    (EnsureGitServiceExistsForHost exampleDeps myServerStore "gitea" "my server"
        "http://new.example.com").store = myServerStore := by
  decide

/-- C9, amended: for `kind` neither empty nor `github` and a non-empty
`gitUrl`, on a store whose records can be listed: when no record has
`Spec.URL = gitUrl`, no record is stored under the name `n` (the supplied name,
or the host of `gitUrl` when the supplied name is empty), no record is stored
under `ToValidNameWithDots n` either, and the store does not refuse the
`Create`, the call returns no error and its one write creates the record with
record name `ToValidNameWithDots n`, `Spec.Name = n`, URL `gitUrl` and kind
`kind`; the records already stored stay as they were. -/
theorem ensure_creates_record (d : Deps) (s : GitServiceStore) (kind name gitUrl n : String)
    (hk : kind ≠ "") (hg : kind ≠ "github") (hu : gitUrl ≠ "")
    (hl : s.listFails = false)
    (hno : ∀ x ∈ s.items, x.Spec.URL ≠ gitUrl)
    (hname : (name ≠ "" ∧ n = name) ∨ (name = "" ∧ d.urlHost gitUrl = some n))
    (hraw : ∀ x ∈ s.items, x.Name ≠ n)
    (hsan : ∀ x ∈ s.items, x.Name ≠ d.ToValidNameWithDots n)
    (hcf : s.createFails = false) :
    (EnsureGitServiceExistsForHost d s kind name gitUrl).err = none ∧
    (EnsureGitServiceExistsForHost d s kind name gitUrl).calls =
      [.gitServicesList, .gitServicesGet n,
        .gitServicesCreate ⟨d.ToValidNameWithDots n, ⟨n, gitUrl, kind⟩⟩] ∧
    (EnsureGitServiceExistsForHost d s kind name gitUrl).store =
      { s with items := s.items ++ [⟨d.ToValidNameWithDots n, ⟨n, gitUrl, kind⟩⟩] } ∧
    (EnsureGitServiceExistsForHost d s kind name gitUrl).out = [] := by
  have hn : ¬ (kind = "" ∨ kind = "github" ∨ gitUrl = "") := by
    rintro (h | h | h)
    · exact hk h
    · exact hg h
    · exact hu h
  rw [ensure_of_no_url_match d s kind name gitUrl n hn hl hno hname]
  obtain ⟨e, hget⟩ := get_error_of_absent s n hraw
  have hcr := create_ok s (newGitService d kind n gitUrl) hcf hsan
  unfold ensureByName
  simp only [hget, hcr]
  refine ⟨?_, ?_, ?_, ?_⟩ <;> first | rfl | trivial

/-- C9, amended, at the input of the specification: `github-ent` with an empty
name for `https://github.example.com` on the empty store creates the record
`github.example.com`. -/
theorem ensure_creates_record_witness :
    exampleDeps.urlHost "https://github.example.com" = some "github.example.com" ∧
    (EnsureGitServiceExistsForHost exampleDeps emptyStore "github-ent" ""
        "https://github.example.com").err = none ∧
    (EnsureGitServiceExistsForHost exampleDeps emptyStore "github-ent" ""
        "https://github.example.com").store =
      storeOf [⟨"github.example.com",
        ⟨"github.example.com", "https://github.example.com", "github-ent"⟩⟩] :=
  ⟨by decide,
    (ensure_creates_record exampleDeps emptyStore "github-ent" "" "https://github.example.com"
      "github.example.com" (by decide) (by decide) (by decide) rfl (by decide)
      (Or.inr ⟨rfl, by decide⟩) (by decide) (by decide) rfl).1,
    by decide⟩

/-- C10, the code at the failing inputs: for a supplied name that the sanitizer
changes, when no record has the URL, none is stored under the supplied name and
one is stored under the sanitized name, the call looks up the supplied name,
attempts a `Create` under the sanitized name, and returns the already-exists
error; the stored record keeps its URL and kind. -/
theorem ensure_misses_record_under_sanitized_name (d : Deps) (s : GitServiceStore)
    (kind name gitUrl : String) (cur : GitService)
    (hk : kind ≠ "") (hg : kind ≠ "github") (hu : gitUrl ≠ "") (hne : name ≠ "")
    (hl : s.listFails = false) (hcf : s.createFails = false)
    (hno : ∀ x ∈ s.items, x.Spec.URL ≠ gitUrl)
    (hraw : ∀ x ∈ s.items, x.Name ≠ name)
    (hsan : findByName s.items (d.ToValidNameWithDots name) = some cur) :
    (EnsureGitServiceExistsForHost d s kind name gitUrl).err =
      some (.createFailed (d.ToValidNameWithDots name)
        (.alreadyExists (d.ToValidNameWithDots name))) ∧
    (EnsureGitServiceExistsForHost d s kind name gitUrl).calls =
      [.gitServicesList, .gitServicesGet name,
        .gitServicesCreate ⟨d.ToValidNameWithDots name, ⟨name, gitUrl, kind⟩⟩] ∧
    (EnsureGitServiceExistsForHost d s kind name gitUrl).store = s := by
  have hn : ¬ (kind = "" ∨ kind = "github" ∨ gitUrl = "") := by
    rintro (h | h | h)
    · exact hk h
    · exact hg h
    · exact hu h
  rw [ensure_of_no_url_match d s kind name gitUrl name hn hl hno (Or.inl ⟨hne, rfl⟩)]
  obtain ⟨e, hget⟩ := get_error_of_absent s name hraw
  have hcr := create_alreadyExists s (newGitService d kind name gitUrl) cur hcf hsan
  unfold ensureByName
  simp only [hget, hcr]
  refine ⟨?_, ?_, ?_⟩ <;> first | rfl | trivial

/-- C10 at a concrete failing input: the record `my-server` exists with another
URL and kind, the call names it `My Server`, and the record is not updated. -/
theorem ensure_misses_record_under_sanitized_name_witness :
    ((∀ x ∈ myServerStore.items, x.Spec.URL ≠ "http://new.example.com") ∧
     (∀ x ∈ myServerStore.items, x.Name ≠ "My Server") ∧
     findByName myServerStore.items (exampleDeps.ToValidNameWithDots "My Server") =
       some ⟨"my-server", ⟨"my server", "http://old.example.com", "gitea"⟩⟩) ∧
    (EnsureGitServiceExistsForHost exampleDeps myServerStore "gitlab" "My Server"
        "http://new.example.com").err =
      some (.createFailed "my-server" (.alreadyExists "my-server")) ∧
    (EnsureGitServiceExistsForHost exampleDeps myServerStore "gitlab" "My Server"
        "http://new.example.com").store = myServerStore :=
  ⟨by decide,
    (ensure_misses_record_under_sanitized_name exampleDeps myServerStore "gitlab" "My Server"
      "http://new.example.com" ⟨"my-server", ⟨"my server", "http://old.example.com", "gitea"⟩⟩
      (by decide) (by decide) (by decide) (by decide) rfl rfl (by decide) (by decide)
      (by decide)).1.trans (by decide),
    by decide⟩

/-! ## Lemmas on every outcome of the upsert, the resolver tiers and the default steps -/

theorem ensureByName_cases (d : Deps) (s : GitServiceStore) (kind n gitUrl : String) :
    (∃ e e', s.Get n = .error e ∧ s.Create (newGitService d kind n gitUrl) = .error e' ∧
      ensureByName d s kind n gitUrl =
        ⟨some (.createFailed (d.ToValidNameWithDots n) e'), s, [],
          [.gitServicesList, .gitServicesGet n,
            .gitServicesCreate (newGitService d kind n gitUrl)]⟩) ∨
    (∃ e s', s.Get n = .error e ∧ s.Create (newGitService d kind n gitUrl) = .ok s' ∧
      ensureByName d s kind n gitUrl =
        ⟨none, s', [],
          [.gitServicesList, .gitServicesGet n,
            .gitServicesCreate (newGitService d kind n gitUrl)]⟩) ∨
    (∃ cur e', s.Get n = .ok cur ∧ (cur.Spec.URL ≠ gitUrl ∨ cur.Spec.GitKind ≠ kind) ∧
      s.Update (withURLAndKind cur gitUrl kind) = .error e' ∧
      ensureByName d s kind n gitUrl =
        ⟨some (.updateFailed (d.ToValidNameWithDots n) e'), s, [],
          [.gitServicesList, .gitServicesGet n,
            .gitServicesUpdate (withURLAndKind cur gitUrl kind)]⟩) ∨
    (∃ cur s', s.Get n = .ok cur ∧ (cur.Spec.URL ≠ gitUrl ∨ cur.Spec.GitKind ≠ kind) ∧
      s.Update (withURLAndKind cur gitUrl kind) = .ok s' ∧
      ensureByName d s kind n gitUrl =
        ⟨none, s', [],
          [.gitServicesList, .gitServicesGet n,
            .gitServicesUpdate (withURLAndKind cur gitUrl kind)]⟩) ∨
    (∃ cur, s.Get n = .ok cur ∧ cur.Spec.URL = gitUrl ∧ cur.Spec.GitKind = kind ∧
      ensureByName d s kind n gitUrl =
        ⟨none, s, [], [.gitServicesList, .gitServicesGet n]⟩) := by
  have hU : (newGitService d kind n gitUrl).Spec.URL = gitUrl := rfl
  have hK : (newGitService d kind n gitUrl).Spec.GitKind = kind := rfl
  have hN : (newGitService d kind n gitUrl).Name = d.ToValidNameWithDots n := rfl
  unfold ensureByName
  simp only [hU, hK, hN]
  cases hget : s.Get n with
  | error e =>
    cases hcr : s.Create (newGitService d kind n gitUrl) with
    | error e' => exact Or.inl ⟨e, e', rfl, rfl, rfl⟩
    | ok s' => exact Or.inr (Or.inl ⟨e, s', rfl, rfl, rfl⟩)
  | ok cur =>
    by_cases hc : cur.Spec.URL ≠ gitUrl ∨ cur.Spec.GitKind ≠ kind
    · cases hup : s.Update (withURLAndKind cur gitUrl kind) with
      | error e' =>
        refine Or.inr (Or.inr (Or.inl ⟨cur, e', rfl, hc, hup, ?_⟩))
        simp only [if_pos hc, hup]
      | ok s' =>
        refine Or.inr (Or.inr (Or.inr (Or.inl ⟨cur, s', rfl, hc, hup, ?_⟩)))
        simp only [if_pos hc, hup]
    · have hc' : cur.Spec.URL = gitUrl ∧ cur.Spec.GitKind = kind := by
        constructor
        · by_contra h; exact hc (Or.inl h)
        · by_contra h; exact hc (Or.inr h)
      refine Or.inr (Or.inr (Or.inr (Or.inr ⟨cur, rfl, hc'.1, hc'.2, ?_⟩)))
      simp only [if_neg hc]

theorem ensure_cases (d : Deps) (s : GitServiceStore) (kind name gitUrl : String)
    (hn : ¬ (kind = "" ∨ kind = "github" ∨ gitUrl = "")) :
    (∃ e, s.List = .error e ∧
      EnsureGitServiceExistsForHost d s kind name gitUrl =
        ⟨some (.store e), s, [], [.gitServicesList]⟩) ∨
    (∃ gs, s.listFails = false ∧ firstWithURL s.items gitUrl = some gs ∧
      gs.Spec.GitKind = kind ∧
      EnsureGitServiceExistsForHost d s kind name gitUrl =
        ⟨none, s, [], [.gitServicesList]⟩) ∨
    (∃ gs e, s.listFails = false ∧ firstWithURL s.items gitUrl = some gs ∧
      gs.Spec.GitKind ≠ kind ∧ s.Update (withKind gs kind) = .error e ∧
      EnsureGitServiceExistsForHost d s kind name gitUrl =
        ⟨some (.updateKindFailed gs.Name e), s,
          [kindChangedNotice gs.Name gs.Spec.GitKind kind],
          [.gitServicesList, .gitServicesUpdate (withKind gs kind)]⟩) ∨
    (∃ gs s', s.listFails = false ∧ firstWithURL s.items gitUrl = some gs ∧
      gs.Spec.GitKind ≠ kind ∧ s.Update (withKind gs kind) = .ok s' ∧
      EnsureGitServiceExistsForHost d s kind name gitUrl =
        ⟨none, s', [kindChangedNotice gs.Name gs.Spec.GitKind kind],
          [.gitServicesList, .gitServicesUpdate (withKind gs kind)]⟩) ∨
    (s.listFails = false ∧ firstWithURL s.items gitUrl = none ∧ name = "" ∧
      d.urlHost gitUrl = none ∧
      EnsureGitServiceExistsForHost d s kind name gitUrl =
        ⟨some (.couldNotParseURL gitUrl), s, [], [.gitServicesList]⟩) ∨
    (∃ n, s.listFails = false ∧ firstWithURL s.items gitUrl = none ∧
      ((name ≠ "" ∧ n = name) ∨ (name = "" ∧ d.urlHost gitUrl = some n)) ∧
      EnsureGitServiceExistsForHost d s kind name gitUrl =
        ensureByName d s kind n gitUrl) := by
  unfold EnsureGitServiceExistsForHost
  rw [if_neg hn]
  by_cases hl : s.listFails = true
  · left
    exact ⟨.unavailable, by simp [GitServiceStore.List, hl], by simp [GitServiceStore.List, hl]⟩
  · have hl' : s.listFails = false := by simpa using hl
    right
    rw [list_ok s hl']
    simp only
    cases hf : firstWithURL s.items gitUrl with
    | some gs =>
      simp only
      by_cases hk : gs.Spec.GitKind = kind
      · left
        refine ⟨gs, hl', rfl, hk, ?_⟩
        simp [hk]
      · right
        have hk' : gs.Spec.GitKind ≠ kind := hk
        simp only [if_pos hk']
        cases hup : s.Update (withKind gs kind) with
        | error e => exact Or.inl ⟨gs, e, hl', rfl, hk, hup, by simp only [hup]⟩
        | ok s' => exact Or.inr (Or.inl ⟨gs, s', hl', rfl, hk, hup, by simp only [hup]⟩)
    | none =>
      simp only
      right; right; right
      by_cases hname : name = ""
      · simp only [hname, if_true]
        cases hh : d.urlHost gitUrl with
        | none =>
          left
          refine ⟨hl', ?_, ?_, ?_, ?_⟩ <;> first | rfl | trivial
        | some host =>
          right
          refine ⟨host, hl', ?_, Or.inr ⟨?_, ?_⟩, ?_⟩ <;> first | rfl | trivial
      · simp only [hname, if_false]
        right
        refine ⟨name, hl', ?_, Or.inl ⟨hname, rfl⟩, ?_⟩ <;> first | rfl | trivial

theorem nodup_map_replace {β : Type} (f : GitService → β) (pre post : List GitService)
    (g g' : GitService) (h : ((pre ++ g :: post).map f).Nodup)
    (hg : f g' = f g ∨ ∀ x ∈ pre ++ g :: post, f x ≠ f g') :
    ((pre ++ g' :: post).map f).Nodup := by
  rw [List.map_append, List.map_cons] at h ⊢
  rcases hg with heq | hnew
  · rw [heq]; exact h
  · obtain ⟨hpre, hcons, hdis⟩ := List.nodup_append.mp h
    obtain ⟨_, hpost⟩ := List.nodup_cons.mp hcons
    refine List.nodup_append.mpr ⟨hpre, List.nodup_cons.mpr ⟨?_, hpost⟩, ?_⟩
    · intro hmem
      obtain ⟨x, hx, hfx⟩ := List.mem_map.mp hmem
      exact hnew x (by simp [hx]) hfx
    · intro b hb1 hb2
      rcases List.mem_cons.mp hb2 with rfl | hb2
      · obtain ⟨x, hx, hfx⟩ := List.mem_map.mp hb1
        exact hnew x (by simp [hx]) hfx
      · exact hdis hb1 (List.mem_cons_of_mem _ hb2)

theorem nodup_map_append_new {β : Type} (f : GitService → β) (items : List GitService)
    (g : GitService) (h : (items.map f).Nodup) (hnew : ∀ x ∈ items, f x ≠ f g) :
    ((items ++ [g]).map f).Nodup := by
  rw [List.map_append, List.map_cons, List.map_nil]
  refine List.nodup_append.mpr ⟨h, List.nodup_singleton _, ?_⟩
  intro b hb1 hb2
  obtain ⟨x, hx, hfx⟩ := List.mem_map.mp hb1
  rw [List.mem_singleton] at hb2
  exact hnew x hx (hfx.trans hb2)

theorem scanSecrets_of_firstMatching_labelled (d : Deps) (gitServiceURL : String)
    (sec : Secret) (serviceKind : String)
    (hlab : sec.Labels.lookup d.LabelServiceKind = some serviceKind) :
    ∀ secrets : List Secret, firstMatchingSecret d secrets gitServiceURL = some sec →
      scanSecrets d secrets gitServiceURL = (serviceKind, none) := by
  intro secrets
  induction secrets with
  | nil => intro h; simp [firstMatchingSecret] at h
  | cons x rest ih =>
    intro h
    unfold firstMatchingSecret at h
    unfold scanSecrets
    by_cases hp : hasPrefix x.Name d.SecretJenkinsPipelineGitCredentials = true
    · cases ha : x.Annotations.lookup d.AnnotationURL with
      | none =>
        simp only [hp, ha, true_and, if_true] at h ⊢
        simp at h
        exact ih h
      | some url =>
        by_cases hu : url = gitServiceURL
        · subst hu
          simp only [hp, ha, true_and, if_true] at h ⊢
          simp at h
          subst h
          simp [hlab]
        · have hne : ¬ (some url = some gitServiceURL) := by
            intro hc; exact hu (Option.some.inj hc)
          simp only [hp, ha, true_and, if_true, hne, if_false, hu] at h ⊢
          exact ih h
    · simp only [hp, false_and, if_false] at h ⊢
      exact ih h

theorem scanSecrets_of_no_match (d : Deps) (gitServiceURL : String) :
    ∀ secrets : List Secret,
      (∀ sec ∈ secrets, hasPrefix sec.Name d.SecretJenkinsPipelineGitCredentials = true →
        sec.Annotations.lookup d.AnnotationURL ≠ some gitServiceURL) →
      scanSecrets d secrets gitServiceURL = ("", some (.noSecretFound gitServiceURL)) := by
  intro secrets
  induction secrets with
  | nil => intro _; rfl
  | cons x rest ih =>
    intro h
    have ih' := ih (fun sec hs => h sec (List.mem_cons_of_mem _ hs))
    unfold scanSecrets
    by_cases hp : hasPrefix x.Name d.SecretJenkinsPipelineGitCredentials = true
    · have hx := h x (List.mem_cons_self _ _) hp
      cases ha : x.Annotations.lookup d.AnnotationURL with
      | none => simp only [hp, if_true]; exact ih'
      | some url =>
        have hu : url ≠ gitServiceURL := by
          intro hc; rw [ha, hc] at hx; exact hx rfl
        simp only [hp, if_true, hu, if_false]
        exact ih'
    · simp only [hp, if_false]
      exact ih'

theorem getServiceKindFromSecrets_of_no_match (d : Deps) (secrets : SecretStore)
    (gitServiceURL : String)
    (h : ∀ sec ∈ secrets.items,
      hasPrefix sec.Name d.SecretJenkinsPipelineGitCredentials = true →
        sec.Annotations.lookup d.AnnotationURL ≠ some gitServiceURL) :
    (getServiceKindFromSecrets d secrets gitServiceURL).2 ≠ none := by
  unfold getServiceKindFromSecrets SecretStore.List
  by_cases hl : secrets.listFails = true
  · simp [hl]
  · simp [hl, scanSecrets_of_no_match d gitServiceURL secrets.items h]

theorem getGitServiceKind_of_secrets_miss (d : Deps) (gitServices : GitServiceStore)
    (secrets : SecretStore) (gitServiceURL : String)
    (hsaas : d.SaasGitKind gitServiceURL = "")
    (hmiss : (getServiceKindFromSecrets d secrets gitServiceURL).2 ≠ none ∨
      (getServiceKindFromSecrets d secrets gitServiceURL).1 = "") :
    GetGitServiceKind d gitServices secrets gitServiceURL =
      ⟨(getServiceKindFromGitServices gitServices gitServiceURL).1,
        (getServiceKindFromGitServices gitServices gitServiceURL).2,
        [.secretsList, .gitServicesList]⟩ := by
  unfold GetGitServiceKind
  have hc : ¬ ((getServiceKindFromSecrets d secrets gitServiceURL).2 = none ∧
      (getServiceKindFromSecrets d secrets gitServiceURL).1 ≠ "") := by
    rintro ⟨h1, h2⟩
    rcases hmiss with h | h
    · exact h h1
    · exact h2 h
  simp only [hsaas, ne_eq, not_true_eq_false, if_false, hc]

theorem getServiceKindFromGitServices_found (s : GitServiceStore) (gitServiceURL : String)
    (g : GitService) (hl : s.listFails = false)
    (hf : firstWithURL s.items gitServiceURL = some g) :
    getServiceKindFromGitServices s gitServiceURL = (g.Spec.GitKind, none) := by
  simp [getServiceKindFromGitServices, GitServiceStore.List, hl, hf]

theorem getServiceKindFromGitServices_missing (s : GitServiceStore) (gitServiceURL : String)
    (h : s.listFails = true ∨ ∀ g ∈ s.items, g.Spec.URL ≠ gitServiceURL) :
    getServiceKindFromGitServices s gitServiceURL =
      ("", some (.noGitServiceResource gitServiceURL)) := by
  unfold getServiceKindFromGitServices GitServiceStore.List
  by_cases hl : s.listFails = true
  · simp [hl]
  · rcases h with h | h
    · exact absurd h hl
    · simp [hl, firstWithURL_none_of_forall gitServiceURL s.items h]

theorem string_append_left_cancel (p a b : String) (h : p ++ a = p ++ b) : a = b := by
  have h' := congrArg String.data h
  simp only [String.data_append] at h'
  exact String.ext (List.append_cancel_left h')

theorem promoteStep_environments (d : Deps) (names : List String) :
    (names.map (fun n => CreateWorkflowPromoteStep d n false)).filterMap
        (fun st => st.Promote.map (fun p => p.Environment)) = names := by
  induction names with
  | nil => rfl
  | cons n rest ih => simp [CreateWorkflowPromoteStep, List.filterMap_cons] at ih ⊢; exact ih

theorem promoteStep_names_nodup (d : Deps) (names : List String) (h : names.Nodup) :
    ((names.map (fun n => CreateWorkflowPromoteStep d n false)).map
      (fun st => st.Name)).Nodup := by
  rw [List.map_map]
  refine List.Nodup.map ?_ h
  intro a b hab
  exact string_append_left_cancel "step-promote-" a b hab

theorem getWorkflow_synthesized (d : Deps) (name : String) (c : WorkflowClient) (ns : String)
    (m : List (String × Environment)) (names : List String)
    (hname : normalizedName d name = d.DefaultWorkflowName)
    (hget : (c.Get d.DefaultWorkflowName).2 ≠ none)
    (henv : c.orderedEnvironments = .inr (m, names)) :
    GetWorkflow d name c ns =
      ⟨some { Name := d.DefaultWorkflowName, Namespace := ns,
              Steps := (names.filter (qualifies d m)).map
                (fun n => CreateWorkflowPromoteStep d n false) },
        none, c, [.workflowsGet d.DefaultWorkflowName, .getOrderedEnvironments]⟩ := by
  unfold normalizedName at hname
  unfold GetWorkflow
  simp only [hname]
  simp [hget, henv, appendPromoteSteps_eq]

theorem getWorkflow_client (d : Deps) (name : String) (c : WorkflowClient) (ns : String) :
    (GetWorkflow d name c ns).client = c := by
  unfold GetWorkflow
  simp only
  generalize (if name = "" then d.DefaultWorkflowName else name) = n
  by_cases h : (c.Get n).2 = none ∨ n ≠ d.DefaultWorkflowName
  · rw [if_pos h]
  · rw [if_neg h]
    cases c.orderedEnvironments with
    | inl e => rfl
    | inr p => rfl

theorem getWorkflow_calls (d : Deps) (name : String) (c : WorkflowClient) (ns : String) :
    ∀ call ∈ (GetWorkflow d name c ns).calls,
      call = .workflowsGet (normalizedName d name) ∨ call = .getOrderedEnvironments := by
  unfold GetWorkflow normalizedName
  simp only
  generalize (if name = "" then d.DefaultWorkflowName else name) = n
  intro call hcall
  by_cases h : (c.Get n).2 = none ∨ n ≠ d.DefaultWorkflowName
  · rw [if_pos h] at hcall
    simp at hcall
    exact Or.inl hcall
  · rw [if_neg h] at hcall
    cases hp : c.orderedEnvironments with
    | inl e => rw [hp] at hcall; simpa using hcall
    | inr p => rw [hp] at hcall; simpa using hcall

/-! ## Claims on the invariant, the resolver tiers, failures, notices and the round trip -/

/-- C11: on a store keyed by record name in which no two records share a
`Spec.URL`, the store that `EnsureGitServiceExistsForHost` leaves, whether the
call succeeds or fails and whatever `kind`, `name` and `gitUrl` are, has no
two records sharing a `Spec.URL` either. -/
theorem ensure_preserves_url_uniqueness (d : Deps) (s : GitServiceStore)
    (kind name gitUrl : String) (hnames : NamesUnique s) (hurls : URLsUnique s) :
    URLsUnique (EnsureGitServiceExistsForHost d s kind name gitUrl).store := by
  by_cases hn : kind = "" ∨ kind = "github" ∨ gitUrl = ""
  · have e1 : EnsureGitServiceExistsForHost d s kind name gitUrl = ⟨none, s, [], []⟩ := by
      unfold EnsureGitServiceExistsForHost
      rw [if_pos hn]
    rw [e1]; exact hurls
  · rcases ensure_cases d s kind name gitUrl hn with
      ⟨e, _, hr⟩ | ⟨gs, _, _, _, hr⟩ | ⟨gs, e, _, _, _, _, hr⟩ | ⟨gs, s', _, hf, _, hup, hr⟩ |
      ⟨_, _, _, _, hr⟩ | ⟨n, _, hf, _, hr⟩
    · rw [hr]; exact hurls
    · rw [hr]; exact hurls
    · rw [hr]; exact hurls
    · rw [hr]
      obtain ⟨hs', _⟩ := update_ok_inv _ _ _ hup
      obtain ⟨pre, post, he, _, _⟩ := firstWithURL_split _ _ _ hf
      have hpn : ∀ x ∈ pre, x.Name ≠ (withKind gs kind).Name :=
        nodup_map_split_pre (fun g => g.Name) pre post gs (by
          have := hnames; unfold NamesUnique at this; rwa [he] at this)
      have hrep : replaceByName s.items (withKind gs kind) =
          pre ++ withKind gs kind :: post := by
        rw [he]; exact replaceByName_split (withKind gs kind) gs post pre hpn rfl
      unfold URLsUnique at hurls ⊢
      simp only [hs', hrep]
      rw [he] at hurls
      exact nodup_map_replace (fun g => g.Spec.URL) pre post gs (withKind gs kind) hurls
        (Or.inl rfl)
    · rw [hr]; exact hurls
    · rw [hr]
      have hall := firstWithURL_none_forall gitUrl s.items hf
      rcases ensureByName_cases d s kind n gitUrl with
        ⟨_, _, _, _, hb⟩ | ⟨_, s', _, hcr, hb⟩ | ⟨_, _, _, _, _, hb⟩ |
        ⟨cur, s', hget, _, hup, hb⟩ | ⟨_, _, _, _, hb⟩
      · rw [hb]; exact hurls
      · rw [hb]
        obtain ⟨hs', _⟩ := create_ok_inv _ _ _ hcr
        unfold URLsUnique at hurls ⊢
        simp only [hs']
        exact nodup_map_append_new (fun g => g.Spec.URL) s.items _ hurls hall
      · rw [hb]; exact hurls
      · rw [hb]
        obtain ⟨hs', _⟩ := update_ok_inv _ _ _ hup
        obtain ⟨pre, post, he, hp, hcn⟩ := findByName_split _ _ _ (get_ok_inv _ _ _ hget)
        have hrep : replaceByName s.items (withURLAndKind cur gitUrl kind) =
            pre ++ withURLAndKind cur gitUrl kind :: post := by
          rw [he]
          exact replaceByName_split _ cur post pre (fun x hx => by
            have := hp x hx
            simpa [withURLAndKind, hcn] using this) rfl
        unfold URLsUnique at hurls ⊢
        simp only [hs', hrep]
        have hall' : ∀ x ∈ pre ++ cur :: post,
            x.Spec.URL ≠ (withURLAndKind cur gitUrl kind).Spec.URL := by
          intro x hx; exact hall x (by rw [he]; exact hx)
        rw [he] at hurls
        exact nodup_map_replace (fun g => g.Spec.URL) pre post cur _ hurls (Or.inr hall')
      · rw [hb]; exact hurls

/-- C11 at a concrete input: the record stored under `git` gets a new URL and
kind, and the two URLs of the store stay different. -/
theorem ensure_preserves_url_uniqueness_witness :
    (NamesUnique exampleStore ∧ URLsUnique exampleStore) ∧
    URLsUnique (EnsureGitServiceExistsForHost exampleDeps exampleStore "gitea" "git"
      "https://gitea.example.com").store ∧
    (EnsureGitServiceExistsForHost exampleDeps exampleStore "gitea" "git"
      "https://gitea.example.com").store.items =
      [⟨"git.example.com", ⟨"git.example.com", "https://git.example.com", "gitlab"⟩⟩,
       ⟨"git", ⟨"git", "https://gitea.example.com", "gitea"⟩⟩] :=
  ⟨by decide,
    ensure_preserves_url_uniqueness exampleDeps exampleStore "gitea" "git"
      "https://gitea.example.com" (by decide) (by decide),
    by decide⟩

/-- C12 as stated fails when the label is present with an empty value: the
first matching credential secret carries the label, and `GetGitServiceKind`
does not return its value with no error. With no stored record it returns an
error, and with a stored record it returns that record's kind. -/
theorem getGitServiceKind_empty_label_counterexample :
    exampleDeps.SaasGitKind "https://github.example.com" = "" ∧
    firstMatchingSecret exampleDeps [emptyLabelSecret] "https://github.example.com" =
      some emptyLabelSecret ∧
    emptyLabelSecret.Labels.lookup exampleDeps.LabelServiceKind = some "" ∧
    GetGitServiceKind exampleDeps emptyStore { items := [emptyLabelSecret], listFails := false }
        "https://github.example.com" =
      ⟨"", some (.noGitServiceResource "https://github.example.com"),
        [.secretsList, .gitServicesList]⟩ ∧
    GetGitServiceKind exampleDeps giteaStore { items := [emptyLabelSecret], listFails := false }
        "https://github.example.com" =
      ⟨"gitea", none, [.secretsList, .gitServicesList]⟩ := by
  decide

/-- C12, amended: for a host that is not in the SaaS table and a secret
collection that can be listed, when the first secret in iteration order whose
name has the credential prefix and whose URL annotation equals the host URL
carries a service-kind label with a non-empty value, `GetGitServiceKind`
returns that value with no error, having listed the secrets only, whatever
the stored GitService records are. -/
theorem getGitServiceKind_from_secret (d : Deps) (gitServices : GitServiceStore)
    (secrets : SecretStore) (gitServiceURL : String) (sec : Secret) (serviceKind : String)
    (hsaas : d.SaasGitKind gitServiceURL = "")
    (hlist : secrets.listFails = false)
    (hfirst : firstMatchingSecret d secrets.items gitServiceURL = some sec)
    (hlab : sec.Labels.lookup d.LabelServiceKind = some serviceKind)
    (hne : serviceKind ≠ "") :
    (GetGitServiceKind d gitServices secrets gitServiceURL).kind = serviceKind ∧
    (GetGitServiceKind d gitServices secrets gitServiceURL).err = none ∧
    (GetGitServiceKind d gitServices secrets gitServiceURL).calls = [.secretsList] := by
  have hs : getServiceKindFromSecrets d secrets gitServiceURL = (serviceKind, none) := by
    unfold getServiceKindFromSecrets SecretStore.List
    simp only [hlist, Bool.false_eq_true, if_false]
    exact scanSecrets_of_firstMatching_labelled d gitServiceURL sec serviceKind hlab _ hfirst
  unfold GetGitServiceKind
  simp [hsaas, hs, hne]

/-- C12, amended, at a concrete input: secrets without the prefix or without
the URL annotation are skipped, the first of two matching secrets wins, and the
stored record of another kind is not consulted. -/
theorem getGitServiceKind_from_secret_witness :
    (exampleDeps.SaasGitKind "https://github.example.com" = "" ∧
     firstMatchingSecret exampleDeps exampleSecrets.items "https://github.example.com" =
       some ⟨"jx-pipeline-git-one", [("jenkins.io/url", "https://github.example.com")],
          [("jenkins.io/service-kind", "github")]⟩) ∧
    (GetGitServiceKind exampleDeps giteaStore exampleSecrets
        "https://github.example.com").kind = "github" ∧
    (GetGitServiceKind exampleDeps giteaStore exampleSecrets
        "https://github.example.com").err = none :=
  ⟨by decide,
    (getGitServiceKind_from_secret exampleDeps giteaStore exampleSecrets
      "https://github.example.com"
      ⟨"jx-pipeline-git-one", [("jenkins.io/url", "https://github.example.com")],
          [("jenkins.io/service-kind", "github")]⟩ "github"
      (by decide) rfl (by decide) (by decide) (by decide)).1,
    by decide⟩

/-- C13: for a host that is not in the SaaS table, when listing the secrets
fails, `GetGitServiceKind` returns what the stored-record lookup returns; when
the records can be listed and one has the host URL, that is the kind of the
first such record, with no error. -/
theorem getGitServiceKind_secrets_unlistable (d : Deps) (gitServices : GitServiceStore)
    (secrets : SecretStore) (gitServiceURL : String)
    (hsaas : d.SaasGitKind gitServiceURL = "")
    (hfail : secrets.listFails = true) :
    (GetGitServiceKind d gitServices secrets gitServiceURL).kind =
      (getServiceKindFromGitServices gitServices gitServiceURL).1 ∧
    (GetGitServiceKind d gitServices secrets gitServiceURL).err =
      (getServiceKindFromGitServices gitServices gitServiceURL).2 ∧
    (∀ (list : List GitService) (g : GitService), gitServices.List = .ok list →
      firstWithURL list gitServiceURL = some g →
      (GetGitServiceKind d gitServices secrets gitServiceURL).kind = g.Spec.GitKind ∧
      (GetGitServiceKind d gitServices secrets gitServiceURL).err = none) := by
  have hmiss : (getServiceKindFromSecrets d secrets gitServiceURL).2 ≠ none := by
    simp [getServiceKindFromSecrets, SecretStore.List, hfail]
  have hg := getGitServiceKind_of_secrets_miss d gitServices secrets gitServiceURL hsaas
    (Or.inl hmiss)
  refine ⟨by rw [hg], by rw [hg], ?_⟩
  intro list g hlist hf
  obtain ⟨hl, hitems⟩ := list_ok_inv gitServices list hlist
  rw [hitems] at hf
  rw [hg, getServiceKindFromGitServices_found gitServices gitServiceURL g hl hf]
  exact ⟨rfl, rfl⟩

/-- C13 at a concrete input: the secrets cannot be listed and the stored
record of the host has kind `gitea`. -/
theorem getGitServiceKind_secrets_unlistable_witness :
    exampleDeps.SaasGitKind "https://github.example.com" = "" ∧
    (GetGitServiceKind exampleDeps giteaStore { items := [], listFails := true }
        "https://github.example.com").kind = "gitea" ∧
    (GetGitServiceKind exampleDeps giteaStore { items := [], listFails := true }
        "https://github.example.com").err = none :=
  ⟨by decide,
    ((getGitServiceKind_secrets_unlistable exampleDeps giteaStore
      { items := [], listFails := true } "https://github.example.com" (by decide) rfl).2.2
      giteaStore.items
      ⟨"github.example.com", ⟨"github.example.com", "https://github.example.com", "gitea"⟩⟩
      rfl (by decide))⟩

/-- C14: for a host that is not in the SaaS table, when no secret with the
credential prefix has a URL annotation equal to the host URL, and either the
GitService records cannot be listed or none of them has the host URL,
`GetGitServiceKind` returns the empty kind and an error. -/
theorem getGitServiceKind_nothing_found (d : Deps) (gitServices : GitServiceStore)
    (secrets : SecretStore) (gitServiceURL : String)
    (hsaas : d.SaasGitKind gitServiceURL = "")
    (hsec : ∀ sec ∈ secrets.items,
      hasPrefix sec.Name d.SecretJenkinsPipelineGitCredentials = true →
        sec.Annotations.lookup d.AnnotationURL ≠ some gitServiceURL)
    (hgs : gitServices.listFails = true ∨ ∀ g ∈ gitServices.items, g.Spec.URL ≠ gitServiceURL) :
    (GetGitServiceKind d gitServices secrets gitServiceURL).kind = "" ∧
    (GetGitServiceKind d gitServices secrets gitServiceURL).err =
      some (.noGitServiceResource gitServiceURL) := by
  rw [getGitServiceKind_of_secrets_miss d gitServices secrets gitServiceURL hsaas
    (Or.inl (getServiceKindFromSecrets_of_no_match d secrets gitServiceURL hsec)),
    getServiceKindFromGitServices_missing gitServices gitServiceURL hgs]
  exact ⟨rfl, rfl⟩

/-- C14 at the input of the specification: `https://github.example.com` with no
SaaS entry, no matching secret and no stored record. -/
theorem getGitServiceKind_nothing_found_witness :
    (exampleDeps.SaasGitKind "https://github.example.com" = "" ∧
     (∀ sec ∈ ([] : List Secret),
        hasPrefix sec.Name exampleDeps.SecretJenkinsPipelineGitCredentials = true →
          sec.Annotations.lookup exampleDeps.AnnotationURL ≠
            some "https://github.example.com")) ∧
    (GetGitServiceKind exampleDeps emptyStore { items := [], listFails := false }
        "https://github.example.com").kind = "" ∧
    (GetGitServiceKind exampleDeps emptyStore { items := [], listFails := false }
        "https://github.example.com").err =
      some (.noGitServiceResource "https://github.example.com") :=
  ⟨⟨by decide, by simp⟩,
    getGitServiceKind_nothing_found exampleDeps emptyStore { items := [], listFails := false }
      "https://github.example.com" (by decide) (by simp) (Or.inr (by simp [emptyStore]))⟩

/-- C15 as stated fails: the `Get` the call issues fails, with not-found on the
empty store and with another store error on a store whose `Get` is broken, and
in both cases the call returns no error, having created the record. -/
theorem ensure_swallows_get_failure_counterexample :
    (emptyStore.Get "git" = .error (.notFound "git") ∧
     Call.gitServicesGet "git" ∈
      (EnsureGitServiceExistsForHost exampleDeps emptyStore "gitea" "git"
        "https://git.example.com").calls ∧
     (EnsureGitServiceExistsForHost exampleDeps emptyStore "gitea" "git"
        "https://git.example.com").err = none) ∧
    (getFailingStore.Get "git" = .error .unavailable ∧
     Call.gitServicesGet "git" ∈
      (EnsureGitServiceExistsForHost exampleDeps getFailingStore "gitea" "git"
        "https://git.example.com").calls ∧
     (EnsureGitServiceExistsForHost exampleDeps getFailingStore "gitea" "git"
        "https://git.example.com").err = none) :=
  ⟨⟨rfl, by decide, by decide⟩, ⟨rfl, by decide, by decide⟩⟩

/-- C15, amended: for `kind` neither empty nor `github` and a non-empty
`gitUrl`: when the `List` fails its error is returned; when the `Create` or the
`Update` the call issues is refused the call returns an error. A failing `Get`
is not returned: the call goes on to the `Create`, and returns no error when
the store accepts it. -/
theorem ensure_reports_store_failures (d : Deps) (s : GitServiceStore)
    (kind name gitUrl : String)
    (hk : kind ≠ "") (hg : kind ≠ "github") (hu : gitUrl ≠ "") :
    (∀ e, s.List = .error e →
      (EnsureGitServiceExistsForHost d s kind name gitUrl).err = some (.store e)) ∧
    (∀ g e, Call.gitServicesCreate g ∈ (EnsureGitServiceExistsForHost d s kind name gitUrl).calls →
      s.Create g = .error e →
      (EnsureGitServiceExistsForHost d s kind name gitUrl).err =
        some (.createFailed g.Name e)) ∧
    (∀ g e, Call.gitServicesUpdate g ∈ (EnsureGitServiceExistsForHost d s kind name gitUrl).calls →
      s.Update g = .error e →
      (EnsureGitServiceExistsForHost d s kind name gitUrl).err ≠ none) ∧
    (∀ n e s', Call.gitServicesGet n ∈ (EnsureGitServiceExistsForHost d s kind name gitUrl).calls →
      s.Get n = .error e → s.Create (newGitService d kind n gitUrl) = .ok s' →
      (EnsureGitServiceExistsForHost d s kind name gitUrl).err = none ∧
      (EnsureGitServiceExistsForHost d s kind name gitUrl).store = s') := by
  have hn : ¬ (kind = "" ∨ kind = "github" ∨ gitUrl = "") := by
    rintro (h | h | h)
    · exact hk h
    · exact hg h
    · exact hu h
  rcases ensure_cases d s kind name gitUrl hn with
    ⟨e, hlist, hr⟩ | ⟨gs, hl, _, _, hr⟩ | ⟨gs, e, hl, _, _, hup, hr⟩ | ⟨gs, s', hl, _, _, hup, hr⟩ |
    ⟨hl, _, _, _, hr⟩ | ⟨n, hl, _, _, hr⟩
  · rw [hr]
    refine ⟨?_, ?_, ?_, ?_⟩
    · intro e' he'; rw [hlist] at he'; cases he'; rfl
    · intro g e' hmem; simp at hmem
    · intro g e' hmem; simp at hmem
    · intro n e' s' hmem; simp at hmem
  · rw [hr]
    refine ⟨?_, ?_, ?_, ?_⟩
    · intro e' he'; rw [list_ok s hl] at he'; cases he'
    · intro g e' hmem; simp at hmem
    · intro g e' hmem; simp at hmem
    · intro n e' s' hmem; simp at hmem
  · rw [hr]
    refine ⟨?_, ?_, ?_, ?_⟩
    · intro e' he'; rw [list_ok s hl] at he'; cases he'
    · intro g e' hmem; simp at hmem
    · intro g e' _ _; simp
    · intro n e' s' hmem; simp at hmem
  · rw [hr]
    refine ⟨?_, ?_, ?_, ?_⟩
    · intro e' he'; rw [list_ok s hl] at he'; cases he'
    · intro g e' hmem; simp at hmem
    · intro g e' hmem hfail
      simp at hmem
      subst hmem
      rw [hup] at hfail; cases hfail
    · intro n e' s'' hmem; simp at hmem
  · rw [hr]
    refine ⟨?_, ?_, ?_, ?_⟩
    · intro e' he'; rw [list_ok s hl] at he'; cases he'
    · intro g e' hmem; simp at hmem
    · intro g e' hmem; simp at hmem
    · intro n e' s' hmem; simp at hmem
  · rw [hr]
    rcases ensureByName_cases d s kind n gitUrl with
      ⟨e1, e2, hget, hcr, hb⟩ | ⟨e1, s1, hget, hcr, hb⟩ | ⟨cur, e2, hget, _, hup, hb⟩ |
      ⟨cur, s1, hget, _, hup, hb⟩ | ⟨cur, hget, _, _, hb⟩
    · rw [hb]
      refine ⟨?_, ?_, ?_, ?_⟩
      · intro e' he'; rw [list_ok s hl] at he'; cases he'
      · intro g e' hmem hfail
        simp at hmem
        subst hmem
        rw [hcr] at hfail; cases hfail; rfl
      · intro g e' hmem; simp at hmem
      · intro n' e' s' hmem _ hok
        simp at hmem
        subst hmem
        rw [hcr] at hok; cases hok
    · rw [hb]
      refine ⟨?_, ?_, ?_, ?_⟩
      · intro e' he'; rw [list_ok s hl] at he'; cases he'
      · intro g e' hmem hfail
        simp at hmem
        subst hmem
        rw [hcr] at hfail; cases hfail
      · intro g e' hmem; simp at hmem
      · intro n' e' s' hmem _ hok
        simp at hmem
        subst hmem
        rw [hcr] at hok; cases hok
        exact ⟨rfl, rfl⟩
    · rw [hb]
      refine ⟨?_, ?_, ?_, ?_⟩
      · intro e' he'; rw [list_ok s hl] at he'; cases he'
      · intro g e' hmem; simp at hmem
      · intro g e' _ _; simp
      · intro n' e' s' hmem hfail
        simp at hmem
        subst hmem
        rw [hget] at hfail; cases hfail
    · rw [hb]
      refine ⟨?_, ?_, ?_, ?_⟩
      · intro e' he'; rw [list_ok s hl] at he'; cases he'
      · intro g e' hmem; simp at hmem
      · intro g e' hmem hfail
        simp at hmem
        subst hmem
        rw [hup] at hfail; cases hfail
      · intro n' e' s' hmem hfail
        simp at hmem
        subst hmem
        rw [hget] at hfail; cases hfail
    · rw [hb]
      refine ⟨?_, ?_, ?_, ?_⟩
      · intro e' he'; rw [list_ok s hl] at he'; cases he'
      · intro g e' hmem; simp at hmem
      · intro g e' hmem; simp at hmem
      · intro n' e' s' hmem hfail
        simp at hmem
        subst hmem
        rw [hget] at hfail; cases hfail

/-- C15, amended, at a concrete input: the `Update` by URL is refused and the
call returns the error. -/
theorem ensure_reports_store_failures_witness :
    ("gitea" ≠ "" ∧ "gitea" ≠ "github" ∧ "https://git.example.com" ≠ "") ∧
    (EnsureGitServiceExistsForHost exampleDeps { exampleStore with updateFails := true }
      "gitea" "" "https://git.example.com").err ≠ none :=
  ⟨by decide,
    (ensure_reports_store_failures exampleDeps { exampleStore with updateFails := true }
      "gitea" "" "https://git.example.com" (by decide) (by decide) (by decide)).2.2.1
      (withKind ⟨"git.example.com", ⟨"git.example.com", "https://git.example.com", "gitlab"⟩⟩
        "gitea")
      .unavailable (by decide) rfl⟩

theorem ensure_url_path_writes_notice (d : Deps) (s : GitServiceStore)
    (kind name gitUrl : String) (gs : GitService)
    (hn : ¬ (kind = "" ∨ kind = "github" ∨ gitUrl = "")) (hl : s.listFails = false)
    (hf : firstWithURL s.items gitUrl = some gs) (hd : gs.Spec.GitKind ≠ kind) :
    (EnsureGitServiceExistsForHost d s kind name gitUrl).out =
      [kindChangedNotice gs.Name gs.Spec.GitKind kind] := by
  rcases ensure_cases d s kind name gitUrl hn with
    ⟨e, hlist, _⟩ | ⟨gs', _, hf', hk', _⟩ | ⟨gs', e, _, hf', _, _, hr⟩ |
    ⟨gs', s', _, hf', _, _, hr⟩ | ⟨_, hf', _, _, _⟩ | ⟨n, _, hf', _, _⟩
  · rw [list_ok s hl] at hlist; cases hlist
  · rw [hf] at hf'; cases hf'; exact absurd hk' hd
  · rw [hf] at hf'; cases hf'; rw [hr]
  · rw [hf] at hf'; cases hf'; rw [hr]
  · rw [hf] at hf'; cases hf'
  · rw [hf] at hf'; cases hf'

/-- C16, the code on the name-match path: when no listed record has the URL,
the record fetched under the name has another kind, and the store accepts the
`Update`, the call changes the kind of that record, returns no error, and
writes nothing to `out`. -/
theorem ensure_name_path_changes_kind_silently (d : Deps) (s s' : GitServiceStore)
    (kind name gitUrl n : String) (cur : GitService)
    (hk : kind ≠ "") (hg : kind ≠ "github") (hu : gitUrl ≠ "")
    (hl : s.listFails = false)
    (hno : ∀ x ∈ s.items, x.Spec.URL ≠ gitUrl)
    (hname : (name ≠ "" ∧ n = name) ∨ (name = "" ∧ d.urlHost gitUrl = some n))
    (hget : s.Get n = .ok cur) (hkind : cur.Spec.GitKind ≠ kind)
    (hup : s.Update (withURLAndKind cur gitUrl kind) = .ok s') :
    (EnsureGitServiceExistsForHost d s kind name gitUrl).err = none ∧
    (EnsureGitServiceExistsForHost d s kind name gitUrl).store = s' ∧
    (EnsureGitServiceExistsForHost d s kind name gitUrl).calls =
      [.gitServicesList, .gitServicesGet n,
        .gitServicesUpdate (withURLAndKind cur gitUrl kind)] ∧
    (withURLAndKind cur gitUrl kind).Spec.GitKind = kind ∧
    (EnsureGitServiceExistsForHost d s kind name gitUrl).out = [] := by
  have hn : ¬ (kind = "" ∨ kind = "github" ∨ gitUrl = "") := by
    rintro (h | h | h)
    · exact hk h
    · exact hg h
    · exact hu h
  rw [ensure_of_no_url_match d s kind name gitUrl n hn hl hno hname]
  rcases ensureByName_cases d s kind n gitUrl with
    ⟨e1, _, hget', _, _⟩ | ⟨e1, _, hget', _, _⟩ | ⟨cur', e2, hget', _, hup', _⟩ |
    ⟨cur', s1, hget', _, hup', hb⟩ | ⟨cur', hget', _, hkk, _⟩
  · rw [hget] at hget'; cases hget'
  · rw [hget] at hget'; cases hget'
  · rw [hget] at hget'; cases hget'; rw [hup] at hup'; cases hup'
  · rw [hget] at hget'; cases hget'; rw [hup] at hup'; cases hup'
    rw [hb]
    exact ⟨rfl, rfl, rfl, rfl, rfl⟩
  · rw [hget] at hget'; cases hget'; exact absurd hkk hkind

/-- C16 at a concrete failing input: the record `git` changes from kind
`bitbucketserver` to `gitea`, and nothing is written to `out`. -/
theorem ensure_name_path_changes_kind_silently_witness :
    (exampleStore.Get "git" =
        .ok ⟨"git", ⟨"git", "https://other.example.com", "bitbucketserver"⟩⟩ ∧
     (∀ x ∈ exampleStore.items, x.Spec.URL ≠ "https://gitea.example.com")) ∧
    (EnsureGitServiceExistsForHost exampleDeps exampleStore "gitea" "git"
      "https://gitea.example.com").store.items =
      [⟨"git.example.com", ⟨"git.example.com", "https://git.example.com", "gitlab"⟩⟩,
       ⟨"git", ⟨"git", "https://gitea.example.com", "gitea"⟩⟩] ∧
    (EnsureGitServiceExistsForHost exampleDeps exampleStore "gitea" "git"
      "https://gitea.example.com").out = [] :=
  ⟨⟨rfl, by decide⟩, by decide,
    (ensure_name_path_changes_kind_silently exampleDeps exampleStore
      { exampleStore with items :=
        [⟨"git.example.com", ⟨"git.example.com", "https://git.example.com", "gitlab"⟩⟩,
         ⟨"git", ⟨"git", "https://gitea.example.com", "gitea"⟩⟩] }
      "gitea" "git" "https://gitea.example.com" "git"
      ⟨"git", ⟨"git", "https://other.example.com", "bitbucketserver"⟩⟩
      (by decide) (by decide) (by decide) rfl (by decide) (Or.inl ⟨by decide, rfl⟩)
      rfl (by decide) rfl).2.2.2.2⟩

/-- C18 as stated fails: the name is empty, `url.Parse` rejects the URL, a
stored record has that URL with another kind, and the call returns no error
and updates the record. -/
theorem ensure_unparseable_url_counterexample :
    exampleDeps.urlHost "://bad" = none ∧
    (EnsureGitServiceExistsForHost exampleDeps unparseableStore "gitlab" "" "://bad").err =
      none ∧
    (EnsureGitServiceExistsForHost exampleDeps unparseableStore "gitlab" ""
        "://bad").store.items =
      [⟨"myhost", ⟨"myhost", "://bad", "gitlab"⟩⟩] := by
  decide

/-- C18, amended: for `kind` neither empty nor `github`, a non-empty `gitUrl`
that `url.Parse` rejects and an empty name, when no stored record has
`Spec.URL = gitUrl`, the call returns an error (the parse error when the
records can be listed), makes no `Create` and no `Update`, and leaves the store
as it was. -/
theorem ensure_unparseable_url_fails (d : Deps) (s : GitServiceStore) (kind gitUrl : String)
    (hk : kind ≠ "") (hg : kind ≠ "github") (hu : gitUrl ≠ "")
    (hparse : d.urlHost gitUrl = none)
    (hno : ∀ x ∈ s.items, x.Spec.URL ≠ gitUrl) :
    (EnsureGitServiceExistsForHost d s kind "" gitUrl).err ≠ none ∧
    (s.listFails = false →
      (EnsureGitServiceExistsForHost d s kind "" gitUrl).err =
        some (.couldNotParseURL gitUrl)) ∧
    (∀ c ∈ (EnsureGitServiceExistsForHost d s kind "" gitUrl).calls, c.isWrite = false) ∧
    (EnsureGitServiceExistsForHost d s kind "" gitUrl).store = s := by
  have hn : ¬ (kind = "" ∨ kind = "github" ∨ gitUrl = "") := by
    rintro (h | h | h)
    · exact hk h
    · exact hg h
    · exact hu h
  have hnone := firstWithURL_none_of_forall gitUrl s.items hno
  rcases ensure_cases d s kind "" gitUrl hn with
    ⟨e, hlist, hr⟩ | ⟨gs, _, hf, _, _⟩ | ⟨gs, e, _, hf, _, _, _⟩ | ⟨gs, s', _, hf, _, _, _⟩ |
    ⟨_, _, _, _, hr⟩ | ⟨n, _, _, hname, _⟩
  · rw [hr]
    refine ⟨by simp, ?_, by simp [Call.isWrite], rfl⟩
    intro hl; rw [list_ok s hl] at hlist; cases hlist
  · rw [hnone] at hf; cases hf
  · rw [hnone] at hf; cases hf
  · rw [hnone] at hf; cases hf
  · rw [hr]
    exact ⟨by simp, fun _ => rfl, by simp [Call.isWrite], rfl⟩
  · rcases hname with ⟨h, _⟩ | ⟨_, h⟩
    · exact absurd rfl h
    · rw [hparse] at h; cases h

/-- C18, amended, at a concrete input: `://bad` with an empty name on the
empty store. -/
theorem ensure_unparseable_url_fails_witness :
    exampleDeps.urlHost "://bad" = none ∧
    (EnsureGitServiceExistsForHost exampleDeps emptyStore "gitea" "" "://bad").err =
      some (.couldNotParseURL "://bad") ∧
    (EnsureGitServiceExistsForHost exampleDeps emptyStore "gitea" "" "://bad").store =
      emptyStore :=
  ⟨by decide,
    (ensure_unparseable_url_fails exampleDeps emptyStore "gitea" "://bad" (by decide)
      (by decide) (by decide) (by decide) (by decide)).2.1 rfl,
    by decide⟩

/-- C20: for `kind` neither empty nor `github`, a non-empty `gitUrl` that is
not in the SaaS table, and secrets none of which has the credential prefix and
a URL annotation equal to `gitUrl`: when `EnsureGitServiceExistsForHost`
returns no error, `GetGitServiceKind` for `gitUrl` on the store it leaves
returns `kind` and no error. -/
theorem ensure_then_getGitServiceKind (d : Deps) (s : GitServiceStore) (secrets : SecretStore)
    (kind name gitUrl : String)
    (hk : kind ≠ "") (hg : kind ≠ "github") (hu : gitUrl ≠ "")
    (hsaas : d.SaasGitKind gitUrl = "")
    (hsec : ∀ sec ∈ secrets.items,
      hasPrefix sec.Name d.SecretJenkinsPipelineGitCredentials = true →
        sec.Annotations.lookup d.AnnotationURL ≠ some gitUrl)
    (herr : (EnsureGitServiceExistsForHost d s kind name gitUrl).err = none) :
    (GetGitServiceKind d (EnsureGitServiceExistsForHost d s kind name gitUrl).store secrets
      gitUrl).kind = kind ∧
    (GetGitServiceKind d (EnsureGitServiceExistsForHost d s kind name gitUrl).store secrets
      gitUrl).err = none := by
  have hn : ¬ (kind = "" ∨ kind = "github" ∨ gitUrl = "") := by
    rintro (h | h | h)
    · exact hk h
    · exact hg h
    · exact hu h
  obtain ⟨hl, g, hf, hgk⟩ := firstWithURL_after_success d s kind name gitUrl hn herr
  rw [getGitServiceKind_of_secrets_miss d _ secrets gitUrl hsaas
    (Or.inl (getServiceKindFromSecrets_of_no_match d secrets gitUrl hsec)),
    getServiceKindFromGitServices_found _ gitUrl g hl hf]
  exact ⟨hgk, rfl⟩

/-- C20 at the scenario of the specification: after the upsert of `github-ent`
for `https://github.example.com` on the empty store, the resolver returns
`github-ent`. -/
theorem ensure_then_getGitServiceKind_witness :
    (exampleDeps.SaasGitKind "https://github.example.com" = "" ∧
     (EnsureGitServiceExistsForHost exampleDeps emptyStore "github-ent" ""
        "https://github.example.com").err = none) ∧
    (GetGitServiceKind exampleDeps
      (EnsureGitServiceExistsForHost exampleDeps emptyStore "github-ent" ""
        "https://github.example.com").store
      { items := [⟨"tls-cert", [("jenkins.io/url", "https://github.example.com")], []⟩],
        listFails := false }
      "https://github.example.com").kind = "github-ent" :=
  ⟨by decide,
    (ensure_then_getGitServiceKind exampleDeps emptyStore
      { items := [⟨"tls-cert", [("jenkins.io/url", "https://github.example.com")], []⟩],
        listFails := false }
      "github-ent" "" "https://github.example.com" (by decide) (by decide) (by decide)
      (by decide) (by decide) (by decide)).1⟩

/-- C17: `GetWorkflow` never writes. For every name, namespace and client
state, the state after the call is the state before; the only calls made are
the `Get` of the workflow and `GetOrderedEnvironments`, neither of which is a
write. Hence the synthesized default workflow is not stored: on the state the
first call leaves, the `Get` of every name answers as before, and a second
`GetWorkflow` with the same arguments returns the same result. -/
theorem getWorkflow_does_not_write (d : Deps) (name : String) (c : WorkflowClient)
    (ns : String) :
    (GetWorkflow d name c ns).client = c ∧
    (∀ call ∈ (GetWorkflow d name c ns).calls,
      (call = .workflowsGet (normalizedName d name) ∨ call = .getOrderedEnvironments) ∧
      call.isWrite = false) ∧
    (∀ n, (GetWorkflow d name c ns).client.Get n = c.Get n) ∧
    GetWorkflow d name (GetWorkflow d name c ns).client ns = GetWorkflow d name c ns := by
  have hc := getWorkflow_client d name c ns
  refine ⟨hc, ?_, ?_, ?_⟩
  · intro call h
    have := getWorkflow_calls d name c ns call h
    refine ⟨this, ?_⟩
    rcases this with rfl | rfl <;> rfl
  · intro n; rw [hc]
  · rw [hc]

/-- C19: when the default workflow is synthesized from an ordered name list
without repeated names, no two of its steps share a `Name`, no two share a
`Promote.Environment` (every step has a `Promote`), and the environments of the
steps, in step order, are a sub-sequence of the name list. -/
theorem getWorkflow_default_steps_distinct (d : Deps) (name : String) (c : WorkflowClient)
    (ns : String) (m : List (String × Environment)) (names : List String)
    (hname : normalizedName d name = d.DefaultWorkflowName)
    (hget : (c.Get d.DefaultWorkflowName).2 ≠ none)
    (henv : c.orderedEnvironments = .inr (m, names))
    (hnodup : names.Nodup) :
    ∃ w, (GetWorkflow d name c ns).workflow = some w ∧
      (w.Steps.map (fun st => st.Name)).Nodup ∧
      (∀ st ∈ w.Steps, st.Promote ≠ none) ∧
      (w.Steps.filterMap (fun st => st.Promote.map (fun p => p.Environment))).Nodup ∧
      List.Sublist (w.Steps.filterMap (fun st => st.Promote.map (fun p => p.Environment)))
        names := by
  rw [getWorkflow_synthesized d name c ns m names hname hget henv]
  refine ⟨_, rfl, ?_, ?_, ?_, ?_⟩
  · exact promoteStep_names_nodup d _ (hnodup.filter _)
  · intro st hst
    obtain ⟨n, _, rfl⟩ := List.mem_map.mp hst
    simp [CreateWorkflowPromoteStep]
  · simp only [promoteStep_environments]
    exact hnodup.filter _
  · simp only [promoteStep_environments]
    exact List.filter_sublist _

/-- C19 at the input of the specification: the steps are for `staging` and
`production`, in the order of the name list. -/
theorem getWorkflow_default_steps_distinct_witness :
    (normalizedName exampleDeps "" = exampleDeps.DefaultWorkflowName ∧
     (exampleWorkflowClient.Get exampleDeps.DefaultWorkflowName).2 ≠ none ∧
     ["staging", "production", "qa"].Nodup) ∧
    ∃ w, (GetWorkflow exampleDeps "" exampleWorkflowClient "jx").workflow = some w ∧
      (w.Steps.map (fun st => st.Name)).Nodup ∧
      (∀ st ∈ w.Steps, st.Promote ≠ none) ∧
      (w.Steps.filterMap (fun st => st.Promote.map (fun p => p.Environment))).Nodup ∧
      List.Sublist (w.Steps.filterMap (fun st => st.Promote.map (fun p => p.Environment)))
        ["staging", "production", "qa"] :=
  ⟨by decide,
    getWorkflow_default_steps_distinct exampleDeps "" exampleWorkflowClient "jx" _
      ["staging", "production", "qa"] (by decide) (by decide) rfl (by decide)⟩

end Jx
